import Mathlib

/-
Verification development for the turn-segmentation and WebM-container-repair
engine of the openai-realtime-observability repository
(src/langsmith-server.js).

Modelling conventions, used throughout:

* Byte buffers (Node `Buffer` / `Uint8Array`) are modelled as `List Nat`.
  Cells of a real `Uint8Array` always lie in `[0, 256)`; theorems that need
  this add it as a hypothesis.  An out-of-bounds read yields `undefined` in
  JavaScript; the embedding reads with `List.getD _ _ 0`, and every theorem
  that depends on the value of a read restricts itself to in-bounds reads
  (JavaScript comparisons such as `buffer[i] === 0xE7` are falsified both by
  `undefined` and by the default `0`, so the branch structure agrees).
  An out-of-bounds indexed assignment on a `Uint8Array` is silently dropped,
  exactly like `List.set` past the end of a list.
* JavaScript numbers are IEEE doubles; every quantity handled by the code is
  a non-negative integer far below `2 ^ 53`, where double arithmetic is
  exact, so they are modelled as `Nat`.  The one exception is the 32-bit
  signed semantics of `<<` and `|` inside `readVint`, which is modelled
  faithfully on `Int` (`toInt32` / `Int.lor`).
* Unbounded `while`/`for` loops become structural recursion, either on an
  explicit iteration count that provably bounds the loop (stated next to
  each definition) or on the remaining iterations, so that every definition
  reduces by `decide` / `rfl` on concrete input.
-/

set_option maxHeartbeats 3200000
set_option maxRecDepth 4000

namespace RTObs

/-- A byte buffer: the shallow embedding of a Node `Buffer`. -/
abbrev Bytes := List Nat

/-- Test for the 4-byte WebM Cluster marker `0x1F 0x43 0xB6 0x75` starting at
index `i`, mirroring the four byte comparisons performed both by
`extractWebmInitSegment` and by `adjustClusterTimestamps` in
src/langsmith-server.js. -/
def clusterMarkerAt (buffer : Bytes) (i : Nat) : Bool :=
  buffer.getD i 0 == 0x1F && buffer.getD (i+1) 0 == 0x43 &&
  buffer.getD (i+2) 0 == 0xB6 && buffer.getD (i+3) 0 == 0x75

/-- Loop body of `extractWebmInitSegment`: scan `i` upward while
`i < buffer.length - 4` (the JavaScript loop bound; note the bound is
`length - 4`, exclusive, computed before the loop and never changed).  The
fuel argument only serves to make the recursion structural; the wrapper
passes `buffer.length`, which bounds the number of iterations. -/
def extractGo (buffer : Bytes) : Nat → Nat → Bytes
  | 0, _ => buffer
  | fuel+1, i =>
    if i < buffer.length - 4 then
      if clusterMarkerAt buffer i then buffer.take i
      else extractGo buffer fuel (i+1)
    else buffer

/-- Embedding of `extractWebmInitSegment(buffer)` from
src/langsmith-server.js: return the bytes before the first Cluster marker
found at an index `i` with `i < buffer.length - 4`, or the whole buffer if
no such index exists. -/
def extractWebmInitSegment (buffer : Bytes) : Bytes :=
  extractGo buffer buffer.length 0

lemma extractGo_none (buffer : Bytes) :
    ∀ (fuel i : Nat),
      (∀ p, i ≤ p → p < buffer.length - 4 → clusterMarkerAt buffer p = false) →
      extractGo buffer fuel i = buffer := by
  intro fuel
  induction fuel with
  | zero => intro i _; rfl
  | succ n ih =>
    intro i h
    rw [extractGo]
    by_cases hi : i < buffer.length - 4
    · rw [if_pos hi, h i le_rfl hi, if_neg (by simp)]
      exact ih (i+1) (fun p hp1 hp2 => h p (by omega) hp2)
    · rw [if_neg hi]

lemma extractGo_found (buffer : Bytes) (j : Nat)
    (hj : j < buffer.length - 4) (hm : clusterMarkerAt buffer j = true) :
    ∀ (n fuel i : Nat), j - i ≤ n → n < fuel → i ≤ j →
      (∀ p, i ≤ p → p < j → clusterMarkerAt buffer p = false) →
      extractGo buffer fuel i = buffer.take j := by
  intro n
  induction n with
  | zero =>
    intro fuel i hn hfuel hij _
    have hij' : i = j := by omega
    obtain ⟨f, rfl⟩ : ∃ f, fuel = f + 1 := ⟨fuel - 1, by omega⟩
    subst hij'
    rw [extractGo, if_pos hj, hm, if_pos rfl]
  | succ n ih =>
    intro fuel i hn hfuel hij hmin
    by_cases hij' : i = j
    · obtain ⟨f, rfl⟩ : ∃ f, fuel = f + 1 := ⟨fuel - 1, by omega⟩
      subst hij'
      rw [extractGo, if_pos hj, hm, if_pos rfl]
    · obtain ⟨f, rfl⟩ : ∃ f, fuel = f + 1 := ⟨fuel - 1, by omega⟩
      have hlt : i < j := by omega
      rw [extractGo, if_pos (by omega), hmin i le_rfl hlt, if_neg (by simp)]
      exact ih f (i+1) (by omega) (by omega) (by omega)
        (fun p hp1 hp2 => hmin p (by omega) hp2)

/-- C6 (amended): `extractWebmInitSegment` returns the bytes preceding the
first occurrence of the 4-byte cluster marker that starts at an index `i`
with `i < buffer.length - 4` (that is, an occurrence followed by at least one
further byte); if no such occurrence exists — in particular when the marker
only occurs in the final four bytes of the buffer — the entire input is
returned. -/
theorem claim6_extract_amended (buffer : Bytes) :
    (∀ j, j < buffer.length - 4 → clusterMarkerAt buffer j = true →
      (∀ p, p < j → clusterMarkerAt buffer p = false) →
      extractWebmInitSegment buffer = buffer.take j) ∧
    ((∀ p, p < buffer.length - 4 → clusterMarkerAt buffer p = false) →
      extractWebmInitSegment buffer = buffer) := by
  constructor
  · intro j hj hm hmin
    exact extractGo_found buffer j hj hm j buffer.length 0 (by omega) (by omega)
      (by omega) (fun p _ hp => hmin p hp)
  · intro h
    exact extractGo_none buffer buffer.length 0 (fun p _ hp => h p hp)

/-- C6 witness: on `[0, 1F, 43, B6, 75, 09]` the marker occurs at index 1,
which is followed by one further byte, and exactly the single preceding byte
is returned. -/
theorem claim6_witness :
    extractWebmInitSegment [0x00, 0x1F, 0x43, 0xB6, 0x75, 0x09] = [0x00] := by
  have h := (claim6_extract_amended [0x00, 0x1F, 0x43, 0xB6, 0x75, 0x09]).1
    1 (by decide) (by decide) (by decide)
  simpa using h

/-- C6 counterexample: a buffer that is exactly the 4-byte cluster marker.
The claim predicts the bytes preceding the first occurrence of the marker,
namely `[]`; the code's scan bound `i < buffer.length - 4` never reaches the
occurrence at index 0, so the whole input is returned instead. -/
theorem claim6_counterexample :
    extractWebmInitSegment [0x1F, 0x43, 0xB6, 0x75] = [0x1F, 0x43, 0xB6, 0x75] ∧
    ([0x1F, 0x43, 0xB6, 0x75] : Bytes) ≠ [] ∧
    clusterMarkerAt [0x1F, 0x43, 0xB6, 0x75] 0 = true := by
  decide

/-- Result of `readVint`: the decoded value and the number of bytes consumed.
The value is an `Int` because the JavaScript accumulation
`value = (value << 8) | buffer[pos + i]` works on 32-bit signed integers
and can produce negative numbers for wide encodings. -/
structure Vint where
  value : Int
  length : Nat
deriving DecidableEq, Repr

/-- JavaScript `ToInt32`: wrap an integer into the signed 32-bit range. -/
def toInt32 (v : Int) : Int := (v + 2147483648) % 4294967296 - 2147483648

/-- One step of the `readVint` value loop, i.e. JavaScript
`value = (value << 8) | buffer[pos + i]`: both `<<` and `|` coerce their
operands through `ToInt32` and operate on 32-bit two's complement. -/
def jsShlOr (v : Int) (b : Nat) : Int :=
  Int.lor (toInt32 (v * 256)) (toInt32 (b : Int))

/-- The `while (length <= 8 && !(firstByte & mask))` loop of `readVint`,
starting from `length = 1`, `mask = 0x80`.  The loop runs at most 8 times,
so fuel 9 (supplied by `vintLen`) makes the recursion exact. -/
def vintLenAux (firstByte : Nat) : Nat → Nat → Nat → Nat
  | 0, len, _ => len
  | fuel+1, len, mask =>
    if len ≤ 8 && (firstByte &&& mask == 0) then
      vintLenAux firstByte fuel (len+1) (mask >>> 1)
    else len

/-- Width in bytes encoded by the leading zero bits of the first byte of a
WebM VINT (9 when no marker bit is found among the top 8 bits). -/
def vintLen (firstByte : Nat) : Nat := vintLenAux firstByte 9 1 128

/-- Embedding of `readVint(buffer, pos)` from src/langsmith-server.js.
After the width loop the JavaScript `mask` variable equals
`0x80 >> (length - 1)`, and the value loop reads bytes
`buffer[pos+1] .. buffer[pos+length-1]`, which the bounds check has just
guaranteed to be in range, so it is folded over the corresponding slice. -/
def readVint (buffer : Bytes) (pos : Nat) : Vint :=
  if buffer.length ≤ pos then ⟨0, 0⟩
  else
    let firstByte := buffer.getD pos 0
    let len := vintLen firstByte
    if 8 < len ∨ buffer.length < pos + len then ⟨0, 1⟩
    else
      let mask := 128 >>> (len - 1)
      let v0 : Int := ((firstByte &&& (mask - 1) : Nat) : Int)
      ⟨((buffer.drop (pos+1)).take (len - 1)).foldl jsShlOr v0, len⟩

/-- Big-endian magnitude of a byte list on top of an initial accumulator:
the idealised (exact integer) version of the `readVint` value loop. -/
def beValue (l : Bytes) (init : Nat) : Nat :=
  l.foldl (fun v b => v * 256 + b) init

lemma toInt32_natCast (n : Nat) (h : n < 2147483648) :
    toInt32 (n : Int) = (n : Int) := by
  unfold toInt32
  omega

lemma mul256_lor_eq_add (a b : Nat) (hb : b < 256) :
    a * 256 ||| b = a * 256 + b := by
  have h256 : a * 256 = 2 ^ 8 * a := by ring
  apply Nat.eq_of_testBit_eq
  intro i
  rw [Nat.testBit_lor, h256, Nat.testBit_mul_pow_two,
    Nat.testBit_mul_pow_two_add a (show b < 2 ^ 8 by omega)]
  rcases lt_or_ge i 8 with h | h
  · simp [if_pos h, Nat.not_le.mpr h]
  · have h28 : (256 : Nat) ≤ 2 ^ i := by
      calc (256 : Nat) = 2 ^ 8 := by norm_num
      _ ≤ 2 ^ i := Nat.pow_le_pow_right (by omega) h
    have hbb : b.testBit i = false :=
      Nat.testBit_lt_two_pow (lt_of_lt_of_le hb h28)
    simp [if_neg (Nat.not_lt.mpr h), h, hbb]

lemma le_beValue (l : Bytes) : ∀ k, k ≤ beValue l k := by
  induction l with
  | nil => intro k; simp [beValue]
  | cons b t ih =>
    intro k
    have h1 : k ≤ k * 256 + b := by nlinarith
    calc k ≤ k * 256 + b := h1
    _ ≤ beValue t (k * 256 + b) := ih (k * 256 + b)

lemma beValue_cons (b : Nat) (t : Bytes) (m : Nat) :
    beValue (b :: t) m = beValue t (m * 256 + b) := rfl

lemma foldl_jsShlOr (l : Bytes) :
    ∀ m : Nat, (∀ x ∈ l, x < 256) → beValue l m < 2147483648 →
      l.foldl jsShlOr (m : Int) = ((beValue l m : Nat) : Int) := by
  induction l with
  | nil => intro m _ _; simp [beValue]
  | cons b t ih =>
    intro m hb hbound
    have hb256 : b < 256 := hb b (by simp)
    have hrest : beValue t (m * 256 + b) < 2147483648 := by
      rw [beValue_cons] at hbound
      exact hbound
    have hsmall : m * 256 + b < 2147483648 :=
      lt_of_le_of_lt (le_beValue t (m * 256 + b)) hrest
    have hcast : (m : Int) * 256 = ((m * 256 : Nat) : Int) := by push_cast; ring
    have hlor : Int.lor ((m * 256 : Nat) : Int) ((b : Nat) : Int)
        = (((m * 256) ||| b : Nat) : Int) := rfl
    have hstep : jsShlOr (m : Int) b = ((m * 256 + b : Nat) : Int) := by
      unfold jsShlOr
      rw [hcast, toInt32_natCast (m * 256) (by omega), toInt32_natCast b (by omega),
        hlor, mul256_lor_eq_add m b hb256]
    rw [List.foldl_cons, hstep, ih (m * 256 + b)
      (fun x hx => hb x (List.mem_cons_of_mem _ hx)) hrest, beValue_cons]

lemma beValue_lt (l : Bytes) : ∀ m : Nat, (∀ x ∈ l, x < 256) →
    beValue l m < (m + 1) * 256 ^ l.length := by
  induction l with
  | nil => intro m _; simp [beValue]
  | cons b t ih =>
    intro m hb
    have hb256 : b < 256 := hb b (by simp)
    have h1 : beValue t (m * 256 + b) < (m * 256 + b + 1) * 256 ^ t.length :=
      ih (m * 256 + b) (fun x hx => hb x (List.mem_cons_of_mem _ hx))
    have h2 : (m * 256 + b + 1) * 256 ^ t.length ≤ ((m + 1) * 256) * 256 ^ t.length :=
      Nat.mul_le_mul_right _ (by omega)
    calc beValue (b :: t) m = beValue t (m * 256 + b) := beValue_cons b t m
    _ < (m * 256 + b + 1) * 256 ^ t.length := h1
    _ ≤ ((m + 1) * 256) * 256 ^ t.length := h2
    _ = (m + 1) * 256 ^ (t.length + 1) := by ring
    _ = (m + 1) * 256 ^ (b :: t).length := by rw [List.length_cons]

lemma width_bound (L m n : Nat) (hL1 : 1 ≤ L) (hL4 : L ≤ 4)
    (hm : m < 2 ^ (8 - L)) (hn : n ≤ L - 1) :
    (m + 1) * 256 ^ n ≤ 2147483648 := by
  have h1 : (m + 1) * 256 ^ n ≤ 2 ^ (8 - L) * 256 ^ (L - 1) :=
    Nat.mul_le_mul (by omega) (Nat.pow_le_pow_right (by omega) hn)
  have h2 : 2 ^ (8 - L) * 256 ^ (L - 1) ≤ 2147483648 := by
    interval_cases L <;> norm_num
  omega

lemma vintLen_pos (b : Nat) : 1 ≤ vintLen b := by
  have H : ∀ fuel len mask, len ≤ vintLenAux b fuel len mask := by
    intro fuel
    induction fuel with
    | zero => intro len mask; simp [vintLenAux]
    | succ n ih =>
      intro len mask
      rw [vintLenAux]
      by_cases h : (len ≤ 8 && (b &&& mask == 0)) = true
      · rw [if_pos h]; exact le_trans (by omega) (ih (len+1) (mask >>> 1))
      · rw [if_neg h]
  exact H 9 1 128

lemma getD_mem (l : List Nat) (pos : Nat) (h : pos < l.length) :
    l.getD pos 0 ∈ l := by
  rw [List.getD_eq_getElem?_getD, List.getElem?_eq_getElem h, Option.getD_some]
  exact List.getElem_mem h

/-- For a genuine byte (`< 256`), a zero first byte yields width 9 (no
marker found) and a non-zero one yields a width between 1 and 8; moreover
the residual low bits of the first byte lie below the final mask.  Verified
by exhausting the 256 byte values. -/
lemma vintLen_byte : ∀ b, b < 256 →
    (b = 0 → vintLen b = 9) ∧
    (b ≠ 0 → vintLen b ≤ 8 ∧ b &&& (128 >>> (vintLen b - 1) - 1) < 2 ^ (8 - vintLen b)) := by
  decide

/-- C9 (amended): `readVint` returns width 0 when `pos` is at or past the
end of the buffer; returns width 1 and value 0 when no width-marker bit is
found within 8 bytes (first byte zero), and also — unlike the original
claim — when the encoded width would extend past the end of the buffer; it
never raises.  Otherwise it returns the width encoded by the first byte's
leading zero bits together with the value accumulated through JavaScript
32-bit shift-or steps, which equals the exact big-endian magnitude of the
remaining bits of the first byte and the subsequent bytes whenever the
width is at most 4 bytes (wider encodings can wrap around 2^31 in the
32-bit arithmetic). -/
theorem claim9_readVint_amended (buffer : Bytes) (pos : Nat)
    (hb : ∀ x ∈ buffer, x < 256) :
    (buffer.length ≤ pos → readVint buffer pos = ⟨0, 0⟩) ∧
    (pos < buffer.length → buffer.getD pos 0 = 0 → readVint buffer pos = ⟨0, 1⟩) ∧
    (pos < buffer.length → buffer.length < pos + vintLen (buffer.getD pos 0) →
      readVint buffer pos = ⟨0, 1⟩) ∧
    (pos < buffer.length → buffer.getD pos 0 ≠ 0 →
      pos + vintLen (buffer.getD pos 0) ≤ buffer.length →
      (readVint buffer pos).length = vintLen (buffer.getD pos 0) ∧
      (vintLen (buffer.getD pos 0) ≤ 4 →
        (readVint buffer pos).value = ((beValue
          ((buffer.drop (pos+1)).take (vintLen (buffer.getD pos 0) - 1))
          (buffer.getD pos 0 &&& (128 >>> (vintLen (buffer.getD pos 0) - 1) - 1)) : Nat) : Int))) := by
  refine ⟨fun h => by rw [readVint, if_pos h], ?_, ?_, ?_⟩
  · intro hpos h0
    have h9 : vintLen (buffer.getD pos 0) = 9 := by rw [h0]; rfl
    simp only [readVint, h9]
    rw [if_neg (show ¬ buffer.length ≤ pos by omega),
      if_pos (Or.inl (show (8:Nat) < 9 by omega))]
  · intro hpos hover
    simp only [readVint]
    rw [if_neg (show ¬ buffer.length ≤ pos by omega), if_pos (Or.inr hover)]
  · intro hpos hne hfit
    have hbyte : buffer.getD pos 0 < 256 := hb _ (getD_mem buffer pos hpos)
    have hv := (vintLen_byte (buffer.getD pos 0) hbyte).2 hne
    have hL8 : vintLen (buffer.getD pos 0) ≤ 8 := hv.1
    simp only [readVint]
    rw [if_neg (show ¬ buffer.length ≤ pos by omega),
      if_neg (show ¬ (8 < vintLen (buffer.getD pos 0) ∨
        buffer.length < pos + vintLen (buffer.getD pos 0)) by push_neg; exact ⟨hL8, hfit⟩)]
    refine ⟨rfl, ?_⟩
    intro h4
    have hL1 : 1 ≤ vintLen (buffer.getD pos 0) := vintLen_pos _
    have hslice : ∀ x ∈ (buffer.drop (pos+1)).take (vintLen (buffer.getD pos 0) - 1),
        x < 256 :=
      fun x hx => hb x (List.mem_of_mem_drop (List.mem_of_mem_take hx))
    have hn : ((buffer.drop (pos+1)).take (vintLen (buffer.getD pos 0) - 1)).length
        ≤ vintLen (buffer.getD pos 0) - 1 := by
      rw [List.length_take]
      omega
    have hbound : beValue ((buffer.drop (pos+1)).take (vintLen (buffer.getD pos 0) - 1))
        (buffer.getD pos 0 &&& (128 >>> (vintLen (buffer.getD pos 0) - 1) - 1))
        < 2147483648 :=
      lt_of_lt_of_le (beValue_lt _ _ hslice)
        (width_bound (vintLen (buffer.getD pos 0)) _ _ hL1 h4 hv.2 hn)
    exact foldl_jsShlOr _ _ hslice hbound

/-- C9 witness: a two-byte VINT `0x41 0x05` at position 0 decodes to width 2
with value `(0x41 and 0x3F) * 256 + 5 = 261`, via the amended theorem. -/
theorem claim9_witness :
    (readVint [0x41, 0x05] 0).length = 2 ∧ (readVint [0x41, 0x05] 0).value = 261 := by
  have h := (claim9_readVint_amended [0x41, 0x05] 0 (by decide)).2.2.2
    (by decide) (by decide) (by decide)
  exact ⟨h.1.trans (by decide), (h.2 (by decide)).trans (by decide)⟩

/-- C9 counterexample: in `[0x40]` the width marker is found in the first
byte (encoded width 2, within 8 bytes), so the claim predicts width 2 with a
big-endian magnitude; the code instead hits the `pos + length > buffer.length`
guard and returns the defensive fallback of width 1, value 0. -/
theorem claim9_counterexample :
    readVint [0x40] 0 = ⟨0, 1⟩ ∧ vintLen 0x40 = 2 ∧ (1 : Nat) ≠ 2 := by
  decide

/-- Embedding of `writeUint(buffer, pos, value, size)` from
src/langsmith-server.js: write `value` big-endian into `size` bytes at
`pos`, iterating `i = size-1 .. 0` with `buffer[pos+i] = value & 0xFF;
value = Math.floor(value / 256)`.  Out-of-range cells are dropped, as on a
`Uint8Array`. -/
def writeUint : Bytes → Nat → Nat → Nat → Bytes
  | buffer, _, _, 0 => buffer
  | buffer, pos, value, size+1 =>
    writeUint (buffer.set (pos + size) (value % 256)) pos (value / 256) size

/-- The timecode read loop of `adjustClusterTimestamps`:
`for (i = 0; i < count; i++) timecode = timecode * 256 + result[pos + i]`. -/
def readTimecode (buffer : Bytes) (pos : Nat) (count : Nat) : Nat :=
  (List.range count).foldl (fun t i => t * 256 + buffer.getD (pos + i) 0) 0

/-- Length of the cluster-size VINT read at `pos + 4` (after the 4 marker
bytes), as consumed by `adjustClusterTimestamps`. -/
def csLen (result : Bytes) (pos : Nat) : Nat := (readVint result (pos + 4)).length

/-- Position of the expected Timecode id byte `0xE7` inside a cluster whose
marker starts at `pos`. -/
def tcPos (result : Bytes) (pos : Nat) : Nat := pos + 4 + csLen result pos

/-- Length of the timecode-size VINT read just after the Timecode id. -/
def tsLen (result : Bytes) (pos : Nat) : Nat :=
  (readVint result (tcPos result pos + 1)).length

/-- Position of the first byte of the big-endian timecode payload. -/
def tcDataPos (result : Bytes) (pos : Nat) : Nat := tcPos result pos + 1 + tsLen result pos

/-- Number of timecode payload bytes: the value of the timecode-size VINT
(where JavaScript loops `i < value` do not run for a negative value,
matching `Int.toNat`). -/
def tcCount (result : Bytes) (pos : Nat) : Nat :=
  (readVint result (tcPos result pos + 1)).value.toNat

/-- One iteration of the scan loop of `adjustClusterTimestamps` at scan
position `pos`: if the cluster marker matches, skip its 4 bytes, read the
cluster size VINT, expect the Timecode id `0xE7`, read the timecode size
VINT and the big-endian timecode, then write back
`Math.max(0, timecode - firstTimestamp)` (natural subtraction) in the same
width, recording the first timecode seen. -/
def adjustStep (result : Bytes) (firstTimestamp : Option Nat) (pos : Nat) :
    Bytes × Option Nat :=
  if clusterMarkerAt result pos then
    if result.getD (tcPos result pos) 0 == 0xE7 then
      let timecode := readTimecode result (tcDataPos result pos) (tcCount result pos)
      let first := firstTimestamp.getD timecode
      (writeUint result (tcDataPos result pos) (timecode - first) (tcCount result pos),
        some first)
    else (result, firstTimestamp)
  else (result, firstTimestamp)

/-- The scan loop of `adjustClusterTimestamps`, iterated for a fixed number
of remaining steps.  The JavaScript loop is
`while (pos < result.length - 10) { ...; pos++ }`; since the body only
rewrites cells in place (`writeUint` preserves the length, see
`writeUint_length`), the bound is constant and the loop from `pos = 0` runs
exactly `result.length - 10` iterations, which the wrapper passes as
`steps`. -/
def adjustGo : Nat → Bytes → Option Nat → Nat → Bytes × Option Nat
  | 0, result, first, _ => (result, first)
  | steps+1, result, first, pos =>
    let r := adjustStep result first pos
    adjustGo steps r.1 r.2 (pos+1)

/-- Embedding of `adjustClusterTimestamps(buffer)` from
src/langsmith-server.js.  The returned offset is
`firstTimestamp || 0`, i.e. 0 when no cluster timecode was found (and also,
indistinguishably, when the first timecode was 0). -/
def adjustClusterTimestamps (buffer : Bytes) : Bytes × Nat :=
  let r := adjustGo (buffer.length - 10) buffer none 0
  (r.1, r.2.getD 0)

lemma writeUint_length :
    ∀ (size : Nat) (buffer : Bytes) (pos value : Nat),
      (writeUint buffer pos value size).length = buffer.length := by
  intro size
  induction size with
  | zero => intro buffer pos value; rfl
  | succ n ih =>
    intro buffer pos value
    rw [writeUint, ih, List.length_set]

lemma writeUint_getD_lt :
    ∀ (size : Nat) (buffer : Bytes) (pos value i d : Nat), i < pos →
      (writeUint buffer pos value size).getD i d = buffer.getD i d := by
  intro size
  induction size with
  | zero => intro buffer pos value i d _; rfl
  | succ n ih =>
    intro buffer pos value i d hi
    rw [writeUint, ih _ _ _ _ _ hi]
    simp only [List.getD_eq_getElem?_getD]
    rw [List.getElem?_set_ne (by omega)]

lemma getD_oob (l : List Nat) (n d : Nat) (h : l.length ≤ n) : l.getD n d = d := by
  rw [List.getD_eq_getElem?_getD, List.getElem?_eq_none h]
  rfl

lemma readVint_length_pos (buffer : Bytes) (pos : Nat) (h : pos < buffer.length) :
    1 ≤ (readVint buffer pos).length := by
  rw [readVint, if_neg (by omega)]
  by_cases hc : 8 < vintLen (buffer.getD pos 0) ∨
      buffer.length < pos + vintLen (buffer.getD pos 0)
  · rw [if_pos hc]
  · rw [if_neg hc]
    exact vintLen_pos _

lemma readVint_oob (buffer : Bytes) (pos : Nat) (h : buffer.length ≤ pos) :
    readVint buffer pos = ⟨0, 0⟩ := by
  rw [readVint, if_pos h]

lemma csLen_pos_of_e7 (result : Bytes) (pos : Nat)
    (he : result.getD (tcPos result pos) 0 = 0xE7) : 1 ≤ csLen result pos := by
  by_cases hb : pos + 4 < result.length
  · exact readVint_length_pos result (pos + 4) hb
  · exfalso
    have hcs0 : csLen result pos = 0 := by
      unfold csLen
      rw [readVint_oob result (pos + 4) (by omega)]
    have : result.getD (tcPos result pos) 0 = 0 := by
      apply getD_oob
      unfold tcPos
      omega
    omega

lemma adjustStep_length (result : Bytes) (first : Option Nat) (pos : Nat) :
    ((adjustStep result first pos).1).length = result.length := by
  rw [adjustStep]
  split
  · split
    · exact writeUint_length ..
    · rfl
  · rfl

lemma adjustStep_getD_lo (result : Bytes) (first : Option Nat) (pos i d : Nat)
    (hi : i < pos + 7) :
    ((adjustStep result first pos).1).getD i d = result.getD i d := by
  rw [adjustStep]
  split
  · split
    · rename_i hm he
      have he' : result.getD (tcPos result pos) 0 = 0xE7 := by simpa using he
      have hcs : 1 ≤ csLen result pos := csLen_pos_of_e7 result pos he'
      by_cases hts : 1 ≤ tsLen result pos
      · apply writeUint_getD_lt
        have : pos + 4 + csLen result pos + 1 + tsLen result pos ≤ tcDataPos result pos := by
          unfold tcDataPos tcPos
          omega
        omega
      · have hv0 : readVint result (tcPos result pos + 1) = ⟨0, 0⟩ := by
          by_cases hb : tcPos result pos + 1 < result.length
          · exact absurd (readVint_length_pos result (tcPos result pos + 1) hb)
              (by unfold tsLen at hts; omega)
          · exact readVint_oob result (tcPos result pos + 1) (by omega)
        have hn : tcCount result pos = 0 := by
          unfold tcCount
          rw [hv0]
          rfl
        rw [hn]
        rfl
    · rfl
  · rfl

lemma adjustGo_length :
    ∀ (steps : Nat) (result : Bytes) (first : Option Nat) (pos : Nat),
      ((adjustGo steps result first pos).1).length = result.length := by
  intro steps
  induction steps with
  | zero => intro result first pos; rfl
  | succ n ih =>
    intro result first pos
    rw [adjustGo, ih, adjustStep_length]

lemma adjustGo_getD_lo :
    ∀ (steps : Nat) (result : Bytes) (first : Option Nat) (pos i d : Nat), i < 7 →
      ((adjustGo steps result first pos).1).getD i d = result.getD i d := by
  intro steps
  induction steps with
  | zero => intro result first pos i d _; rfl
  | succ n ih =>
    intro result first pos i d hi
    rw [adjustGo, ih _ _ _ _ _ hi, adjustStep_getD_lo _ _ _ _ _ (by omega)]

lemma adjustClusterTimestamps_length (buffer : Bytes) :
    ((adjustClusterTimestamps buffer).1).length = buffer.length := by
  rw [adjustClusterTimestamps]
  exact adjustGo_length ..

lemma adjustClusterTimestamps_getD_lo (buffer : Bytes) (i d : Nat) (hi : i < 7) :
    ((adjustClusterTimestamps buffer).1).getD i d = buffer.getD i d := by
  rw [adjustClusterTimestamps]
  exact adjustGo_getD_lo _ _ _ _ _ _ hi

/-- Association-list embedding of a JavaScript `Map`:  lookup. -/
def assocGet {kt vt : Type} [BEq kt] (l : List (kt × vt)) (k : kt) : Option vt :=
  (l.find? (fun e => e.1 == k)).map (fun e => e.2)

/-- Association-list embedding of `Map.set`: replace in place if the key is
present (preserving its position, as a JavaScript `Map` does), else append. -/
def assocSet {kt vt : Type} [BEq kt] : List (kt × vt) → kt → vt → List (kt × vt)
  | [], k, v => [(k, v)]
  | e :: rest, k, v => if e.1 == k then (k, v) :: rest else e :: assocSet rest k v

/-- Association-list embedding of `Map.delete` (keys are unique by
construction, so filtering equals removing the one entry). -/
def assocDelete {kt vt : Type} [BEq kt] (l : List (kt × vt)) (k : kt) : List (kt × vt) :=
  l.filter (fun e => !(e.1 == k))

lemma assocGet_assocSet_self {kt vt : Type} [BEq kt] [LawfulBEq kt]
    (l : List (kt × vt)) (k : kt) (v : vt) :
    assocGet (assocSet l k v) k = some v := by
  induction l with
  | nil => simp [assocGet, assocSet]
  | cons e rest ih =>
    rw [assocSet]
    by_cases he : (e.1 == k) = true
    · rw [if_pos he]
      simp [assocGet]
    · rw [if_neg he]
      rw [assocGet, List.find?]
      simp only [he]
      exact ih

lemma assocGet_assocSet_ne {kt vt : Type} [BEq kt] [LawfulBEq kt]
    (l : List (kt × vt)) (k k' : kt) (v : vt) (h : (k == k') = false) :
    assocGet (assocSet l k v) k' = assocGet l k' := by
  induction l with
  | nil => simp [assocGet, assocSet, List.find?, h]
  | cons e rest ih =>
    rw [assocSet]
    by_cases he : (e.1 == k) = true
    · rw [if_pos he]
      have he1 : e.1 = k := by simpa using he
      rw [assocGet, assocGet, List.find?, List.find?]
      simp only [h, he1]
    · rw [if_neg he]
      rw [assocGet, assocGet, List.find?, List.find?]
      by_cases he2 : (e.1 == k') = true
      · simp only [he2]
      · simp only [he2]
        exact ih

/-- The per-session-per-direction WebM initialization-segment cache
(`webmInitSegments` in src/langsmith-server.js), keyed by
`sessionId + "_" + direction`. -/
abbrev InitCache := List (String × Bytes)

/-- The inline EBML-header test of `makePlayableWebm` (the spec's
`hasContainerHeader`): the buffer has at least 4 bytes and starts with
`0x1A 0x45 0xDF 0xA3`. -/
def hasEbmlHeader (b : Bytes) : Bool :=
  decide (4 ≤ b.length) && (b.getD 0 0 == 0x1A) && (b.getD 1 0 == 0x45) &&
  (b.getD 2 0 == 0xDF) && (b.getD 3 0 == 0xA3)

/-- Embedding of `makePlayableWebm(sessionId, direction, audioBuffer)` from
src/langsmith-server.js, with the global `webmInitSegments` map passed and
returned explicitly.  Note that a cached `Buffer` is a JavaScript object and
hence truthy even when empty, so the code's `if (!initSegment)` test is
exactly an `Option` match. -/
def makePlayableWebm (cache : InitCache) (sessionId direction : String)
    (audioBuffer : Bytes) : Bytes × InitCache :=
  let key := sessionId ++ "_" ++ direction
  let initSegment := assocGet cache key
  if hasEbmlHeader audioBuffer then
    let cache2 := match initSegment with
      | none => assocSet cache key (extractWebmInitSegment audioBuffer)
      | some _ => cache
    ((adjustClusterTimestamps audioBuffer).1, cache2)
  else
    match initSegment with
    | some seg => ((adjustClusterTimestamps (seg ++ audioBuffer)).1, cache)
    | none => (audioBuffer, cache)

/-- C7 (confirmed): when the raw buffer does not begin with the EBML file
signature and the cache holds no initialization segment for the
(session, direction) key, `makePlayableWebm` returns the raw buffer
unmodified together with the untouched cache, and (being a total function
of the embedding) does not raise. -/
theorem claim7_makePlayable_fallback (cache : InitCache)
    (sessionId direction : String) (audioBuffer : Bytes)
    (h1 : hasEbmlHeader audioBuffer = false)
    (h2 : assocGet cache (sessionId ++ "_" ++ direction) = none) :
    makePlayableWebm cache sessionId direction audioBuffer = (audioBuffer, cache) := by
  rw [makePlayableWebm]
  simp only [h1, h2, Bool.false_eq_true, if_false]

/-- C7 witness: a non-WebM three-byte buffer with an empty cache passes
through unchanged. -/
theorem claim7_witness :
    makePlayableWebm [] "sess" "input" [1, 2, 3] = ([1, 2, 3], []) :=
  claim7_makePlayable_fallback [] "sess" "input" [1, 2, 3] (by decide) rfl

/-- C8 (confirmed): if a buffer begins with the 4-byte EBML signature, then
the buffer returned by `makePlayableWebm` also begins with it: timestamp
rebasing only rewrites cluster timecode cells, which sit at least 7 bytes
past each cluster marker, so the first four bytes and the length are
preserved. -/
theorem claim8_makePlayable_header (cache : InitCache)
    (sessionId direction : String) (audioBuffer : Bytes)
    (h : hasEbmlHeader audioBuffer = true) :
    hasEbmlHeader (makePlayableWebm cache sessionId direction audioBuffer).1 = true := by
  rw [makePlayableWebm]
  simp only [h, if_true]
  rw [hasEbmlHeader] at h ⊢
  simp only [Bool.and_eq_true, decide_eq_true_eq, beq_iff_eq] at h ⊢
  refine ⟨⟨⟨⟨?_, ?_⟩, ?_⟩, ?_⟩, ?_⟩
  · rw [adjustClusterTimestamps_length]
    exact h.1.1.1.1
  · rw [adjustClusterTimestamps_getD_lo _ _ _ (by omega)]
    exact h.1.1.1.2
  · rw [adjustClusterTimestamps_getD_lo _ _ _ (by omega)]
    exact h.1.1.2
  · rw [adjustClusterTimestamps_getD_lo _ _ _ (by omega)]
    exact h.1.2
  · rw [adjustClusterTimestamps_getD_lo _ _ _ (by omega)]
    exact h.2

/-- C8 witness: a minimal buffer consisting of exactly the EBML signature
still has the signature after `makePlayableWebm`. -/
theorem claim8_witness :
    hasEbmlHeader (makePlayableWebm [] "sess" "input" [0x1A, 0x45, 0xDF, 0xA3]).1 = true :=
  claim8_makePlayable_header [] "sess" "input" [0x1A, 0x45, 0xDF, 0xA3] (by decide)

lemma adjustGo_succ (steps : Nat) (buf : Bytes) (first : Option Nat) (pos : Nat) :
    adjustGo (steps+1) buf first pos
      = adjustGo steps (adjustStep buf first pos).1 (adjustStep buf first pos).2 (pos+1) := rfl

lemma adjustStep_skip (result : Bytes) (first : Option Nat) (pos : Nat)
    (h : clusterMarkerAt result pos = false) :
    adjustStep result first pos = (result, first) := by
  rw [adjustStep, if_neg (by simp [h])]

lemma adjustGo_skip (steps : Nat) (buf : Bytes) (first : Option Nat) (pos : Nat)
    (h : clusterMarkerAt buf pos = false) :
    adjustGo (steps+1) buf first pos = adjustGo steps buf first (pos+1) := by
  rw [adjustGo_succ, adjustStep_skip buf first pos h]

lemma adjustGo_process (steps : Nat) (buf buf2 : Bytes) (first first2 : Option Nat)
    (pos : Nat) (h : adjustStep buf first pos = (buf2, first2)) :
    adjustGo (steps+1) buf first pos = adjustGo steps buf2 first2 (pos+1) := by
  rw [adjustGo_succ, h]

lemma adjustGo_noMarker :
    ∀ (steps : Nat) (buf : Bytes) (first : Option Nat) (pos : Nat),
      (∀ p, pos ≤ p → clusterMarkerAt buf p = false) →
      adjustGo steps buf first pos = (buf, first) := by
  intro steps
  induction steps with
  | zero => intro buf first pos _; rfl
  | succ n ih =>
    intro buf first pos h
    rw [adjustGo_skip n buf first pos (h pos le_rfl)]
    exact ih buf first (pos+1) (fun p hp => h p (by omega))

lemma adjustGo_add (a : Nat) :
    ∀ (b : Nat) (buf : Bytes) (first : Option Nat) (pos : Nat),
      adjustGo (a + b) buf first pos =
        adjustGo b (adjustGo a buf first pos).1 (adjustGo a buf first pos).2 (pos + a) := by
  induction a with
  | zero =>
    intro b buf first pos
    rw [Nat.zero_add, Nat.add_zero]
    rfl
  | succ n ih =>
    intro b buf first pos
    have h1 : n + 1 + b = (n + b) + 1 := by omega
    rw [h1, adjustGo_succ, ih b _ _ (pos+1), adjustGo_succ]
    have h2 : pos + 1 + n = pos + (n + 1) := by omega
    rw [h2]

lemma clusterMarkerAt_false_first (buffer : Bytes) (i : Nat)
    (h : buffer.getD i 0 ≠ 0x1F) : clusterMarkerAt buffer i = false := by
  have hb : (buffer.getD i 0 == 0x1F) = false := by simpa using h
  unfold clusterMarkerAt
  rw [hb]
  simp only [Bool.false_and]

lemma clusterMarkerAt_false_second (buffer : Bytes) (i : Nat)
    (h : buffer.getD (i+1) 0 ≠ 0x43) : clusterMarkerAt buffer i = false := by
  have hb : (buffer.getD (i+1) 0 == 0x43) = false := by simpa using h
  unfold clusterMarkerAt
  rw [hb]
  simp only [Bool.and_false, Bool.false_and]

lemma getD_replicate (k i : Nat) : (List.replicate k 0).getD i 0 = 0 := by
  rcases lt_or_ge i k with h | h
  · simp [List.getD_eq_getElem?_getD, List.getElem?_eq_getElem, h, List.getElem_replicate]
  · simp [List.getD_eq_getElem?_getD, List.getElem?_eq_none, h, List.length_replicate]

lemma readVint_at_0x83 (buf : Bytes) (pos : Nat) (hb : buf.getD pos 0 = 0x83)
    (hpos : pos < buf.length) : readVint buf pos = ⟨3, 1⟩ := by
  rw [readVint, if_neg (by omega)]
  simp only [hb]
  rw [show vintLen 0x83 = 1 from by decide,
    if_neg (show ¬ ((8:Nat) < 1 ∨ buf.length < pos + 1) by omega)]
  simp only [Nat.sub_self, List.take_zero, List.foldl_nil]
  decide

lemma readVint_at_0x81 (buf : Bytes) (pos : Nat) (hb : buf.getD pos 0 = 0x81)
    (hpos : pos < buf.length) : readVint buf pos = ⟨1, 1⟩ := by
  rw [readVint, if_neg (by omega)]
  simp only [hb]
  rw [show vintLen 0x81 = 1 from by decide,
    if_neg (show ¬ ((8:Nat) < 1 ∨ buf.length < pos + 1) by omega)]
  simp only [Nat.sub_self, List.take_zero, List.foldl_nil]
  decide

lemma readTimecode_one (buf : Bytes) (p : Nat) :
    readTimecode buf p 1 = buf.getD p 0 := by
  show 0 * 256 + buf.getD (p + 0) 0 = buf.getD p 0
  simp

lemma writeUint_one (buf : Bytes) (p v : Nat) :
    writeUint buf p v 1 = buf.set p (v % 256) := by
  rw [writeUint, writeUint, Nat.add_zero]

/-- Characterization of one scan step at the start of a well-formed simple
cluster: marker, one-byte cluster size `0x83`, Timecode id `0xE7`, one-byte
timecode size `0x81`, then a single timecode byte at `pos + 7`. -/
lemma adjustStep_simpleAt (buf : Bytes) (first : Option Nat) (pos : Nat)
    (hm : clusterMarkerAt buf pos = true)
    (h4 : buf.getD (pos+4) 0 = 0x83) (h5 : buf.getD (pos+5) 0 = 0xE7)
    (h6 : buf.getD (pos+6) 0 = 0x81) (hlen : pos + 7 < buf.length) :
    adjustStep buf first pos =
      (buf.set (pos+7) ((buf.getD (pos+7) 0 - first.getD (buf.getD (pos+7) 0)) % 256),
        some (first.getD (buf.getD (pos+7) 0))) := by
  have hcs : readVint buf (pos+4) = ⟨3, 1⟩ := readVint_at_0x83 buf (pos+4) h4 (by omega)
  have htp : tcPos buf pos = pos + 5 := by
    unfold tcPos csLen
    rw [hcs]
    rfl
  have hts : readVint buf (pos+6) = ⟨1, 1⟩ := readVint_at_0x81 buf (pos+6) h6 (by omega)
  have hdp : tcDataPos buf pos = pos + 7 := by
    unfold tcDataPos tsLen
    rw [htp, hts]
    rfl
  have hn : tcCount buf pos = 1 := by
    unfold tcCount
    rw [htp, hts]
    rfl
  rw [adjustStep, if_pos hm, htp,
    if_pos (show (buf.getD (pos+5) 0 == 0xE7) = true from by
      simp only [beq_iff_eq]; exact h5),
    hdp, hn]
  simp only [readTimecode_one, writeUint_one]

/-- A minimal well-formed WebM cluster with a one-byte timecode: marker,
1-byte size VINT `0x83` (covering the 3 content bytes), Timecode element id
`0xE7`, 1-byte size VINT `0x81`, timecode payload byte. -/
def mkSimpleCluster (timecode : Nat) : Bytes :=
  [0x1F, 0x43, 0xB6, 0x75, 0x83, 0xE7, 0x81, timecode]

/-- Scaffolding for the C3 theorem: two simple clusters followed by `m + 4`
zero padding bytes. -/
def c3Buf (t1 t2 m : Nat) : Bytes :=
  mkSimpleCluster t1 ++ mkSimpleCluster t2 ++ List.replicate (m+4) 0

/-- Scaffolding: `c3Buf` after the first cluster timecode is rewritten. -/
def c3Mid (t1 t2 m : Nat) : Bytes := (c3Buf t1 t2 m).set 7 0

/-- Scaffolding: `c3Mid` after the second cluster timecode is rewritten. -/
def c3Out (t1 t2 m : Nat) : Bytes := (c3Mid t1 t2 m).set 15 (t2 - t1)

/-- C3 counterexample: two well-formed clusters with timecodes 5 and 3 in a
16-byte buffer.  The second cluster's marker starts at index 8, inside the
final 10 bytes, so the scan loop (bounded by `pos < length - 10`) never
rewrites it: the claim predicts the second timecode becomes
`max(0, 3 - 5) = 0`, but it stays 3.  The first timecode is rewritten to 0
and the offset 5 is returned, so a cluster was genuinely processed. -/
theorem claim3_counterexample :
    (adjustClusterTimestamps (mkSimpleCluster 5 ++ mkSimpleCluster 3)).1.getD 15 0 = 3 ∧
    (adjustClusterTimestamps (mkSimpleCluster 5 ++ mkSimpleCluster 3)).1.getD 7 0 = 0 ∧
    (adjustClusterTimestamps (mkSimpleCluster 5 ++ mkSimpleCluster 3)).2 = 5 ∧
    (3 : Nat) ≠ Nat.max 0 (3 - 5) := by
  decide

/-- C3 (amended): on buffers made of two well-formed single-byte-timecode
clusters followed by at least four padding zero bytes (so that both cluster
markers start more than 10 bytes before the end), `adjustClusterTimestamps`
takes the first cluster timecode `t1` as origin, rewrites the first
timecode in place to 0 and the second to `max(0, t2 - t1)` (natural
subtraction), preserving the one-byte width of each, and returns `t1` as
the offset.  Cluster timecodes whose marker starts within the final 10
bytes are, contrary to the original claim, not rewritten (see the
counterexample). -/
theorem claim3_adjust_amended (t1 t2 k : Nat) (h1 : t1 < 256) (h2 : t2 < 256)
    (hk : 4 ≤ k) :
    adjustClusterTimestamps (mkSimpleCluster t1 ++ mkSimpleCluster t2 ++ List.replicate k 0)
      = (mkSimpleCluster 0 ++ mkSimpleCluster (t2 - t1) ++ List.replicate k 0, t1) := by
  obtain ⟨m, rfl⟩ : ∃ m, k = m + 4 := ⟨k - 4, by omega⟩
  show adjustClusterTimestamps (c3Buf t1 t2 m)
    = (mkSimpleCluster 0 ++ mkSimpleCluster (t2 - t1) ++ List.replicate (m+4) 0, t1)
  have hL : (c3Buf t1 t2 m).length = m + 20 := by
    simp only [c3Buf, mkSimpleCluster, List.length_append, List.length_replicate,
      List.length_cons, List.length_nil]
    omega
  have e0 : adjustStep (c3Buf t1 t2 m) none 0 = (c3Mid t1 t2 m, some t1) := by
    rw [adjustStep_simpleAt (c3Buf t1 t2 m) none 0 rfl rfl rfl rfl (by omega)]
    show ((c3Buf t1 t2 m).set 7 ((t1 - t1) % 256), some t1) = (c3Mid t1 t2 m, some t1)
    rw [Nat.sub_self, Nat.zero_mod, c3Mid]
  have e8 : adjustStep (c3Mid t1 t2 m) (some t1) 8 = (c3Out t1 t2 m, some t1) := by
    have hlen8 : 8 + 7 < (c3Mid t1 t2 m).length := by
      rw [c3Mid, List.length_set]
      omega
    rw [adjustStep_simpleAt (c3Mid t1 t2 m) (some t1) 8 rfl rfl rfl rfl hlen8]
    show ((c3Mid t1 t2 m).set 15 ((t2 - t1) % 256), some t1) = (c3Out t1 t2 m, some t1)
    rw [Nat.mod_eq_of_lt (show t2 - t1 < 256 by omega), c3Out]
  have hzApp : c3Out t1 t2 m
      = [0x1F, 0x43, 0xB6, 0x75, 0x83, 0xE7, 0x81, 0, 0x1F, 0x43, 0xB6, 0x75, 0x83, 0xE7,
          0x81, t2 - t1] ++ List.replicate (m+4) 0 := rfl
  have hz : ∀ q, 16 ≤ q → (c3Out t1 t2 m).getD q 0 = 0 := by
    intro q hq
    rw [hzApp, List.getD_eq_getElem?_getD, List.getElem?_append_right (by simp; omega)]
    rw [show ([0x1F, 0x43, 0xB6, 0x75, 0x83, 0xE7, 0x81, 0, 0x1F, 0x43, 0xB6, 0x75, 0x83,
      0xE7, 0x81, t2 - t1] : Bytes).length = 16 from by simp]
    rw [← List.getD_eq_getElem?_getD]
    exact getD_replicate _ _
  have htail : ∀ p, 10 ≤ p → clusterMarkerAt (c3Out t1 t2 m) p = false := by
    intro p hp
    rcases Nat.lt_or_ge p 16 with hlt | hge
    · interval_cases p
      · rfl
      · rfl
      · rfl
      · rfl
      · rfl
      · exact clusterMarkerAt_false_second (c3Out t1 t2 m) 15
          (by rw [show (15:Nat)+1 = 16 from rfl, hz 16 (by omega)]; omega)
    · exact clusterMarkerAt_false_first (c3Out t1 t2 m) p (by rw [hz p hge]; omega)
  have s1 : clusterMarkerAt (c3Mid t1 t2 m) 1 = false := rfl
  have s2 : clusterMarkerAt (c3Mid t1 t2 m) 2 = false := rfl
  have s3 : clusterMarkerAt (c3Mid t1 t2 m) 3 = false := rfl
  have s4 : clusterMarkerAt (c3Mid t1 t2 m) 4 = false := rfl
  have s5 : clusterMarkerAt (c3Mid t1 t2 m) 5 = false := rfl
  have s6 : clusterMarkerAt (c3Mid t1 t2 m) 6 = false := rfl
  have s7 : clusterMarkerAt (c3Mid t1 t2 m) 7 = false := rfl
  have s9 : clusterMarkerAt (c3Out t1 t2 m) 9 = false := rfl
  have h10 : adjustGo 10 (c3Buf t1 t2 m) none 0 = (c3Out t1 t2 m, some t1) := by
    rw [adjustGo_process _ _ _ _ _ _ e0,
      adjustGo_skip _ _ _ _ s1, adjustGo_skip _ _ _ _ s2, adjustGo_skip _ _ _ _ s3,
      adjustGo_skip _ _ _ _ s4, adjustGo_skip _ _ _ _ s5, adjustGo_skip _ _ _ _ s6,
      adjustGo_skip _ _ _ _ s7,
      adjustGo_process _ _ _ _ _ _ e8,
      adjustGo_skip _ _ _ _ s9]
    rfl
  rw [adjustClusterTimestamps, hL, show m + 20 - 10 = 10 + m from by omega,
    adjustGo_add 10 m (c3Buf t1 t2 m) none 0, h10,
    adjustGo_noMarker m (c3Out t1 t2 m) (some t1) (0 + 10)
      (fun p hp => htail p (by omega))]
  rfl

/-- C3 witness: the amended theorem applied at `t1 = 5`, `t2 = 3`, four
padding bytes: the first timecode becomes 0, the second `max(0, 3-5) = 0`,
and the returned offset is 5. -/
theorem claim3_witness :
    adjustClusterTimestamps (mkSimpleCluster 5 ++ mkSimpleCluster 3 ++ List.replicate 4 0)
      = (mkSimpleCluster 0 ++ mkSimpleCluster 0 ++ List.replicate 4 0, 5) :=
  claim3_adjust_amended 5 3 4 (by decide) (by decide) (by decide)

/-- Direction of a turn: user speech in, assistant speech out. -/
inductive Direction
  | input
  | output
deriving DecidableEq, Repr

/-- The string the server uses for a direction in cache keys and turn
metadata (`audio.direction` / `turn.type`). -/
def Direction.key : Direction → String
  | .input => "input"
  | .output => "output"

/-- The data events recognized by the observability event handler in
src/langsmith-server.js (any other `event.type` is only appended to the
session's raw event log). -/
inductive REvent
  | speechStarted (timestamp : Nat)
  | speechStopped
  | inputTranscriptionCompleted (transcript : String)
  | outputStarted (timestamp : Nat)
  | outputStopped
  | outputTranscriptDelta (delta : Option String)
  | otherEvent
deriving DecidableEq, Repr

/-- A turn object, as created by the `speech_started` /
`output_audio_buffer.started` handlers.  Audio chunks are stored already
base64-decoded (the server stores the base64 strings and decodes them at
save time; decoding is a bijection on well-formed payloads and the claims
only ever mention the decoded bytes, so the embedding carries the decoded
bytes and the truthiness test on `audio.data` becomes a non-emptiness
test). -/
structure Turn where
  id : Nat
  type : Direction
  startedAt : Nat
  audioChunks : List Bytes
  transcript : String
deriving DecidableEq, Repr

/-- Per-session state, mirroring the object stored in the `sessions` map.
Turn objects live in an id-keyed heap (`turns`) and the four slots hold
references (ids) into it, reflecting that the JavaScript slots and the
timer closures alias the same mutable turn objects; ids are unique within a
session, so reference identity coincides with id equality. -/
structure SessionState where
  turnCount : Nat
  turns : List (Nat × Turn)
  currentInputTurn : Option Nat
  pendingInputTurn : Option Nat
  currentOutputTurn : Option Nat
  pendingOutputTurn : Option Nat
  events : List REvent
deriving DecidableEq, Repr

/-- A pending `setTimeout` finalization callback: deadline (arming time plus
the 1500 ms / 500 ms grace), the session it closes over, the direction and
the captured turn id (`turnToSave`). -/
structure Timer where
  deadline : Nat
  sessionKey : String
  dir : Direction
  turnId : Nat
deriving DecidableEq, Repr

/-- One record of the save log: a call to `saveTurn(session, turn)` with the
turn's state at save time and the audio artifact produced by
`makePlayableWebm` (none when the turn had no audio chunks). -/
structure SavedTurn where
  sessionKey : String
  turn : Turn
  audioArtifact : Option Bytes
deriving DecidableEq, Repr

/-- Global server state.  `sessionHeap` is the object heap: it keeps a
session's object alive even after `sessions.delete`, because timer closures
still reference it; `liveKeys` is the key set (in insertion order) of the
JavaScript `sessions` map, through which all message handlers look sessions
up. -/
structure ServerState where
  sessionHeap : List (String × SessionState)
  liveKeys : List String
  webmInitSegments : InitCache
  timers : List Timer
  savedLog : List SavedTurn
deriving DecidableEq, Repr

/-- The server state at process start. -/
def initialServer : ServerState := ⟨[], [], [], [], []⟩

/-- A freshly allocated session record (`session_start` handler). -/
def freshSession : SessionState := ⟨0, [], none, none, none, none, []⟩

/-- The `sessions.get(key)` lookup: only live (not yet deleted) sessions are
found. -/
def getLive (st : ServerState) (key : String) : Option SessionState :=
  if st.liveKeys.contains key then assocGet st.sessionHeap key else none

/-- The `findSessionId()` fallback: the most recently inserted live session
key (`Array.from(sessions.keys()).pop()`). -/
def findSessionId (st : ServerState) : Option String := st.liveKeys.getLast?

/-- Store an updated session object in the heap. -/
def setSession (st : ServerState) (key : String) (s : SessionState) : ServerState :=
  { st with sessionHeap := assocSet st.sessionHeap key s }

/-- The current-turn slot for a direction. -/
def SessionState.currentTurn (s : SessionState) : Direction → Option Nat
  | .input => s.currentInputTurn
  | .output => s.currentOutputTurn

/-- The pending-turn slot for a direction. -/
def SessionState.pendingTurn (s : SessionState) : Direction → Option Nat
  | .input => s.pendingInputTurn
  | .output => s.pendingOutputTurn

/-- Overwrite the pending-turn slot for a direction. -/
def SessionState.setPending (s : SessionState) (d : Direction) (v : Option Nat) :
    SessionState :=
  match d with
  | .input => { s with pendingInputTurn := v }
  | .output => { s with pendingOutputTurn := v }

/-- Embedding of `saveTurn(session, turn)` restricted to its state effects:
look the captured turn up in its session's heap entry, decode and
concatenate its audio chunks, run them through `makePlayableWebm` (which
may update the init-segment cache) when any chunks exist, and append the
persisted artifact to the save log.  The `sessionId` passed to
`makePlayableWebm` is recovered by identity search in the live `sessions`
map; for a session that has already been deleted it is JavaScript
`undefined`, which string-interpolates into the cache key as "undefined".
Filesystem writes and LangSmith uploads are I/O outside the model. -/
def saveTurn (st : ServerState) (sessionKey : String) (turnId : Nat) : ServerState :=
  match assocGet st.sessionHeap sessionKey with
  | none => st
  | some sess =>
    match assocGet sess.turns turnId with
    | none => st
    | some turn =>
      if turn.audioChunks.isEmpty then
        { st with savedLog := st.savedLog ++ [⟨sessionKey, turn, none⟩] }
      else
        let rawBuffer := turn.audioChunks.flatten
        let sid := if st.liveKeys.contains sessionKey then sessionKey else "undefined"
        let r := makePlayableWebm st.webmInitSegments sid turn.type.key rawBuffer
        { st with webmInitSegments := r.2,
                  savedLog := st.savedLog ++ [⟨sessionKey, turn, some r.1⟩] }

/-- Firing one armed finalization timer: remove it from the pending set,
clear the pending slot it was armed for if (and only if) that slot still
references the captured turn (`session.pendingXxxTurn === turnToSave`), and
save the captured turn unconditionally.  The closure holds the session
object itself, so this works through the heap even after `sessions.delete`. -/
def fireTimer (st : ServerState) (t : Timer) : ServerState :=
  let st1 := { st with timers := st.timers.erase t }
  match assocGet st1.sessionHeap t.sessionKey with
  | none => st1
  | some sess =>
    let sess2 := if sess.pendingTurn t.dir == some t.turnId
      then sess.setPending t.dir none else sess
    saveTurn (setSession st1 t.sessionKey sess2) t.sessionKey t.turnId

/-- Among the armed timers, the first-armed one with the smallest deadline
not exceeding `now` (Node fires due timeouts in deadline order, insertion
order breaking ties). -/
def pickDue (now : Nat) : List Timer → Option Timer
  | [] => none
  | t :: ts =>
    let rest := pickDue now ts
    if t.deadline ≤ now then
      match rest with
      | none => some t
      | some u => if t.deadline ≤ u.deadline then some t else some u
    else rest

/-- Fire every timer whose deadline has passed, earliest first.  The fuel is
the timer count: every firing removes one timer. -/
def fireDue : Nat → Nat → ServerState → ServerState
  | 0, _, st => st
  | fuel+1, now, st =>
    match pickDue now st.timers with
    | none => st
    | some t => fireDue fuel now (fireTimer st t)

/-- The first-armed timer with the smallest deadline, regardless of time
(used to let all outstanding timers fire at the end of a run). -/
def pickNext : List Timer → Option Timer
  | [] => none
  | t :: ts =>
    match pickNext ts with
    | none => some t
    | some u => if t.deadline ≤ u.deadline then some t else some u

/-- Advance virtual time past every outstanding grace period: fire all
remaining timers in deadline order. -/
def drainTimers : Nat → ServerState → ServerState
  | 0, st => st
  | fuel+1, st =>
    match pickNext st.timers with
    | none => st
    | some t => drainTimers fuel (fireTimer st t)

/-- The recognized-event dispatch of the `event` message handler, given the
session resolved from the message (the raw event is always appended to the
session's event log first).  `now` is the arrival time of the HTTP request,
used to arm finalization timers. -/
def handleREvent (now : Nat) (st : ServerState) (key : String) (sess0 : SessionState)
    (e : REvent) : ServerState :=
  let sess := { sess0 with events := sess0.events ++ [e] }
  match e with
  | .speechStarted ts =>
    let newId := sess.turnCount + 1
    setSession st key { sess with
      turnCount := newId,
      turns := assocSet sess.turns newId ⟨newId, .input, ts, [], ""⟩,
      currentInputTurn := some newId }
  | .speechStopped =>
    match sess.currentInputTurn with
    | some i =>
      let st2 := setSession st key
        { sess with pendingInputTurn := some i, currentInputTurn := none }
      { st2 with timers := st2.timers ++ [⟨now + 1500, key, .input, i⟩] }
    | none => setSession st key sess
  | .inputTranscriptionCompleted t =>
    match sess.currentInputTurn.orElse (fun _ => sess.pendingInputTurn) with
    | some i =>
      if t = "" then setSession st key sess
      else
        match assocGet sess.turns i with
        | some turn =>
          setSession st key
            { sess with turns := assocSet sess.turns i { turn with transcript := t } }
        | none => setSession st key sess
    | none => setSession st key sess
  | .outputStarted ts =>
    let newId := sess.turnCount + 1
    setSession st key { sess with
      turnCount := newId,
      turns := assocSet sess.turns newId ⟨newId, .output, ts, [], ""⟩,
      currentOutputTurn := some newId }
  | .outputStopped =>
    match sess.currentOutputTurn with
    | some i =>
      let st2 := setSession st key
        { sess with pendingOutputTurn := some i, currentOutputTurn := none }
      { st2 with timers := st2.timers ++ [⟨now + 500, key, .output, i⟩] }
    | none => setSession st key sess
  | .outputTranscriptDelta d =>
    match sess.currentOutputTurn.orElse (fun _ => sess.pendingOutputTurn) with
    | some i =>
      match assocGet sess.turns i with
      | some turn =>
        setSession st key { sess with
          turns := assocSet sess.turns i
            { turn with transcript := turn.transcript ++ d.getD "" } }
      | none => setSession st key sess
    | none => setSession st key sess
  | .otherEvent => setSession st key sess

/-- The `audio` message handler body for a live session with a non-empty
(truthy) payload: lazily cache the direction's initialization segment from
the first chunk that carries a full EBML header, then append the chunk to
the current-else-pending turn of that direction, if one exists. -/
def handleAudio (st : ServerState) (key : String) (sess : SessionState)
    (dir : Direction) (data : Bytes) : ServerState :=
  let initKey := key ++ "_" ++ dir.key
  let st2 := if (assocGet st.webmInitSegments initKey).isNone && hasEbmlHeader data then
      { st with webmInitSegments :=
          assocSet st.webmInitSegments initKey (extractWebmInitSegment data) }
    else st
  match (sess.currentTurn dir).orElse (fun _ => sess.pendingTurn dir) with
  | some i =>
    match assocGet sess.turns i with
    | some turn =>
      setSession st2 key { sess with
        turns := assocSet sess.turns i
          { turn with audioChunks := turn.audioChunks ++ [data] } }
    | none => st2
  | none => st2

/-- The `session_end` handler body for a live session: save whatever is
still held in the four slots, in the fixed order input-current,
input-pending, output-current, output-pending (grace timers are not
consulted and not cancelled), then delete the two init-segment cache
entries and finally remove the session from the live map (the heap entry
stays, as the object survives through timer closures). -/
def handleSessionEnd (st : ServerState) (key : String) (sess : SessionState) :
    ServerState :=
  let st1 := match sess.currentInputTurn with
    | some i => saveTurn st key i
    | none => st
  let st2 := match sess.pendingInputTurn with
    | some i => saveTurn st1 key i
    | none => st1
  let st3 := match sess.currentOutputTurn with
    | some i => saveTurn st2 key i
    | none => st2
  let st4 := match sess.pendingOutputTurn with
    | some i => saveTurn st3 key i
    | none => st3
  let st5 := { st4 with
    webmInitSegments :=
      assocDelete (assocDelete st4.webmInitSegments (key ++ "_input"))
        (key ++ "_output") }
  { st5 with liveKeys := st5.liveKeys.erase key }

/-- The four message categories accepted by the `/observability` endpoint
that affect the state machine (`signaling` only logs). -/
inductive Msg
  | sessionStart (id : String) (startedAt : Nat)
  | evt (sessionId : Option String) (e : REvent)
  | audioMsg (sessionId : Option String) (dir : Direction) (data : Bytes)
  | sessionEnd (id : Option String)
deriving DecidableEq, Repr

/-- Embedding of the `/observability` POST handler: route one message.
Messages without a session id fall back to the most recently created live
session; unknown session ids are silently dropped. -/
def handleMsg (now : Nat) (st : ServerState) : Msg → ServerState
  | .sessionStart id _ =>
    { st with
      sessionHeap := assocSet st.sessionHeap id freshSession,
      liveKeys := if st.liveKeys.contains id then st.liveKeys else st.liveKeys ++ [id] }
  | .evt sid e =>
    match sid.orElse (fun _ => findSessionId st) with
    | none => st
    | some key =>
      match getLive st key with
      | none => st
      | some sess => handleREvent now st key sess e
  | .audioMsg sid dir data =>
    match sid.orElse (fun _ => findSessionId st) with
    | none => st
    | some key =>
      match getLive st key with
      | none => st
      | some sess => if data.isEmpty then st else handleAudio st key sess dir data
  | .sessionEnd sid =>
    match sid.orElse (fun _ => findSessionId st) with
    | none => st
    | some key =>
      match getLive st key with
      | none => st
      | some sess => handleSessionEnd st key sess

/-- Process one timed input: first let every timer whose deadline has been
reached fire (the Node event loop runs due timeouts before the next request
handler), then handle the message at that time. -/
def stepInput (st : ServerState) (input : Nat × Msg) : ServerState :=
  handleMsg input.1 (fireDue st.timers.length input.1 st) input.2

/-- Run a time-ordered list of inputs against a server state. -/
def run (st : ServerState) (inputs : List (Nat × Msg)) : ServerState :=
  inputs.foldl stepInput st

/-- Run the inputs from a fresh server and then advance virtual time past
all outstanding grace periods. -/
def runAndDrain (inputs : List (Nat × Msg)) : ServerState :=
  let st := run initialServer inputs
  drainTimers st.timers.length st

/-- The forced-drain scenario for C5: a session with all four slots
occupied (current input turn 2, pending input turn 1, current output turn
4, pending output turn 3), a cached input init segment, and a session_end
arriving at t = 110 ms while the pending turns' grace timers (deadlines
1500 ms and 600 ms) have not fired. -/
def c5Trace : List (Nat × Msg) :=
  [(0, Msg.sessionStart "s" 0),
   (0, Msg.evt (some "s") (REvent.speechStarted 0)),
   (0, Msg.evt (some "s") REvent.speechStopped),
   (10, Msg.evt (some "s") (REvent.speechStarted 10)),
   (50, Msg.audioMsg (some "s") Direction.input [0x1A, 0x45, 0xDF, 0xA3, 0, 0, 0]),
   (60, Msg.evt (some "s") (REvent.outputStarted 60)),
   (100, Msg.evt (some "s") REvent.outputStopped),
   (105, Msg.evt (some "s") (REvent.outputStarted 105)),
   (110, Msg.sessionEnd (some "s"))]

/-- C5 (confirmed): when session_end arrives for a live session, every turn
still held in a slot is persisted at that moment, without waiting for the
armed grace timers (their deadlines, 1500 and 600, lie beyond the end time
110 and they are still armed afterwards), in the fixed order input-current
(id 2), input-pending (id 1), output-current (id 4), output-pending (id 3);
the two per-direction init-segment cache entries are removed (the input one
had been populated) and the session is deleted from the live map.  In the
embedded handler (`handleSessionEnd`) the cache deletions are sequenced
before the live-map removal, exactly as in the source. -/
theorem claim5_forced_drain :
    ((run initialServer c5Trace).savedLog.map (fun v => v.turn.id) = [2, 1, 4, 3]) ∧
    ((run initialServer c5Trace).savedLog.map (fun v => v.audioArtifact)
      = [some [0x1A, 0x45, 0xDF, 0xA3, 0, 0, 0], none, none, none]) ∧
    (assocGet (run initialServer (c5Trace.take 8)).webmInitSegments "s_input"
      = some [0x1A, 0x45, 0xDF, 0xA3, 0, 0, 0]) ∧
    (assocGet (run initialServer c5Trace).webmInitSegments "s_input" = none) ∧
    (assocGet (run initialServer c5Trace).webmInitSegments "s_output" = none) ∧
    ((run initialServer c5Trace).liveKeys = []) ∧
    ((run initialServer c5Trace).timers.map (fun t => t.deadline) = [1500, 600]) := by
  refine ⟨rfl, rfl, rfl, rfl, rfl, rfl, rfl⟩

/-- A server state with one init-segment cache entry stored (proof
scaffolding for the audio-handler frame property). -/
def cacheWith (st : ServerState) (cacheKey : String) (v : Bytes) : ServerState :=
  { st with webmInitSegments := assocSet st.webmInitSegments cacheKey v }

/-- C10 (confirmed): an audio message routed to a live session whose
direction has neither a current nor a pending turn leaves every session's
turn state (the whole session heap), the live-key set, the timers and the
save log unchanged; yet if the cache holds no init segment for the
(session, direction) key and the payload begins with the EBML signature,
the chunk's initialization segment is still extracted and cached under that
key. -/
theorem claim10_audio_frame (st : ServerState) (now : Nat) (key : String)
    (sess : SessionState) (dir : Direction) (data : Bytes)
    (hlive : getLive st key = some sess)
    (hcur : sess.currentTurn dir = none) (hpend : sess.pendingTurn dir = none) :
    (handleMsg now st (Msg.audioMsg (some key) dir data)).sessionHeap = st.sessionHeap ∧
    (handleMsg now st (Msg.audioMsg (some key) dir data)).liveKeys = st.liveKeys ∧
    (handleMsg now st (Msg.audioMsg (some key) dir data)).timers = st.timers ∧
    (handleMsg now st (Msg.audioMsg (some key) dir data)).savedLog = st.savedLog ∧
    (assocGet st.webmInitSegments (key ++ "_" ++ dir.key) = none →
      hasEbmlHeader data = true →
      assocGet (handleMsg now st (Msg.audioMsg (some key) dir data)).webmInitSegments
        (key ++ "_" ++ dir.key) = some (extractWebmInitSegment data)) := by
  have hunfold : handleMsg now st (Msg.audioMsg (some key) dir data)
      = if data.isEmpty then st else handleAudio st key sess dir data := by
    show (match getLive st key with
      | none => st
      | some s => if data.isEmpty then st else handleAudio st key s dir data) = _
    rw [hlive]
  rw [hunfold]
  by_cases hdata : data.isEmpty
  · rw [if_pos hdata]
    refine ⟨rfl, rfl, rfl, rfl, ?_⟩
    intro _ hh
    exfalso
    have hnil : data = [] := by simpa using hdata
    subst hnil
    simp [hasEbmlHeader] at hh
  · rw [if_neg hdata]
    have hslot : (sess.currentTurn dir).orElse (fun _ => sess.pendingTurn dir) = none := by
      rw [hcur, hpend]
      rfl
    have haud : handleAudio st key sess dir data
        = if (assocGet st.webmInitSegments (key ++ "_" ++ dir.key)).isNone &&
              hasEbmlHeader data then
            cacheWith st (key ++ "_" ++ dir.key) (extractWebmInitSegment data)
          else st := by
      simp only [handleAudio, hslot]
      rfl
    rw [haud]
    by_cases hcond : ((assocGet st.webmInitSegments (key ++ "_" ++ dir.key)).isNone &&
        hasEbmlHeader data) = true
    · rw [if_pos hcond]
      refine ⟨rfl, rfl, rfl, rfl, fun _ _ => ?_⟩
      exact assocGet_assocSet_self ..
    · rw [if_neg hcond]
      refine ⟨rfl, rfl, rfl, rfl, ?_⟩
      intro hget hh
      exfalso
      apply hcond
      rw [hget, hh]
      rfl

/-- C10 witness: a live fresh session (no turns at all) receiving an
EBML-headed input chunk keeps all turn state unchanged and caches the
chunk's init segment (here the whole chunk, which has no cluster marker). -/
theorem claim10_witness :
    (handleMsg 5 (run initialServer [(0, Msg.sessionStart "s" 0)])
        (Msg.audioMsg (some "s") Direction.input [0x1A, 0x45, 0xDF, 0xA3])).sessionHeap
      = (run initialServer [(0, Msg.sessionStart "s" 0)]).sessionHeap ∧
    assocGet (handleMsg 5 (run initialServer [(0, Msg.sessionStart "s" 0)])
        (Msg.audioMsg (some "s") Direction.input [0x1A, 0x45, 0xDF, 0xA3])).webmInitSegments
        ("s" ++ "_" ++ Direction.input.key)
      = some (extractWebmInitSegment [0x1A, 0x45, 0xDF, 0xA3]) := by
  have h := claim10_audio_frame (run initialServer [(0, Msg.sessionStart "s" 0)]) 5 "s"
    freshSession Direction.input [0x1A, 0x45, 0xDF, 0xA3] rfl rfl rfl
  exact ⟨h.1, h.2.2.2.2 rfl (by decide)⟩

lemma getLive_contains (st : ServerState) (key : String) (sess : SessionState)
    (h : getLive st key = some sess) : st.liveKeys.contains key = true := by
  by_cases hc : st.liveKeys.contains key = true
  · exact hc
  · rw [getLive, if_neg hc] at h
    cases h

lemma getLive_setSession (st : ServerState) (key : String) (s : SessionState)
    (hc : st.liveKeys.contains key = true) :
    getLive (setSession st key s) key = some s := by
  show (if st.liveKeys.contains key = true
    then assocGet (assocSet st.sessionHeap key s) key else none) = some s
  rw [if_pos hc, assocGet_assocSet_self]

/-- C2 (amended): a transcript event that reaches the session's
current-else-pending turn of the matching direction updates that turn: an
input transcript-completion event with a non-empty transcript REPLACES the
turn's accumulated transcript with the event's transcript (it does not
append), and an output transcript-delta event concatenates its delta (or
the empty string when the delta is missing) onto the turn's transcript. -/
theorem claim2_transcript_amended (st : ServerState) (now : Nat) (key : String)
    (sess : SessionState) (i : Nat) (turn : Turn)
    (hlive : getLive st key = some sess) (hturn : assocGet sess.turns i = some turn) :
    (sess.currentInputTurn.orElse (fun _ => sess.pendingInputTurn) = some i →
      ∀ t : String, t ≠ "" →
      ∃ sess2, getLive (handleMsg now st (Msg.evt (some key)
          (REvent.inputTranscriptionCompleted t))) key = some sess2 ∧
        assocGet sess2.turns i = some { turn with transcript := t }) ∧
    (sess.currentOutputTurn.orElse (fun _ => sess.pendingOutputTurn) = some i →
      ∀ d : Option String,
      ∃ sess2, getLive (handleMsg now st (Msg.evt (some key)
          (REvent.outputTranscriptDelta d))) key = some sess2 ∧
        assocGet sess2.turns i
          = some { turn with transcript := turn.transcript ++ d.getD "" }) := by
  have hc := getLive_contains st key sess hlive
  constructor
  · intro hslot t ht
    have hmsg : handleMsg now st (Msg.evt (some key) (REvent.inputTranscriptionCompleted t))
        = handleREvent now st key sess (REvent.inputTranscriptionCompleted t) := by
      show (match getLive st key with
        | none => st
        | some s => handleREvent now st key s (REvent.inputTranscriptionCompleted t)) = _
      rw [hlive]
    have hslotE : ({ sess with
        events := sess.events ++ [REvent.inputTranscriptionCompleted t] }
        : SessionState).currentInputTurn.orElse
        (fun _ => ({ sess with
          events := sess.events ++ [REvent.inputTranscriptionCompleted t] }
          : SessionState).pendingInputTurn) = some i := hslot
    have hturnE : assocGet ({ sess with
        events := sess.events ++ [REvent.inputTranscriptionCompleted t] }
        : SessionState).turns i = some turn := hturn
    have hre : handleREvent now st key sess (REvent.inputTranscriptionCompleted t)
        = setSession st key { sess with
            events := sess.events ++ [REvent.inputTranscriptionCompleted t],
            turns := assocSet sess.turns i { turn with transcript := t } } := by
      simp only [handleREvent, hslotE, hturnE, if_neg ht]
    rw [hmsg, hre]
    exact ⟨_, getLive_setSession st key _ hc, assocGet_assocSet_self ..⟩
  · intro hslot d
    have hmsg : handleMsg now st (Msg.evt (some key) (REvent.outputTranscriptDelta d))
        = handleREvent now st key sess (REvent.outputTranscriptDelta d) := by
      show (match getLive st key with
        | none => st
        | some s => handleREvent now st key s (REvent.outputTranscriptDelta d)) = _
      rw [hlive]
    have hslotE : ({ sess with
        events := sess.events ++ [REvent.outputTranscriptDelta d] }
        : SessionState).currentOutputTurn.orElse
        (fun _ => ({ sess with
          events := sess.events ++ [REvent.outputTranscriptDelta d] }
          : SessionState).pendingOutputTurn) = some i := hslot
    have hturnE : assocGet ({ sess with
        events := sess.events ++ [REvent.outputTranscriptDelta d] }
        : SessionState).turns i = some turn := hturn
    have hre : handleREvent now st key sess (REvent.outputTranscriptDelta d)
        = setSession st key { sess with
            events := sess.events ++ [REvent.outputTranscriptDelta d],
            turns := assocSet sess.turns i
              { turn with transcript := turn.transcript ++ d.getD "" } } := by
      simp only [handleREvent, hslotE, hturnE]
    rw [hmsg, hre]
    exact ⟨_, getLive_setSession st key _ hc, assocGet_assocSet_self ..⟩

/-- C2 witness: a session with a current input turn (id 1) and a current
output turn (id 2); an input completion "a" then "b" leaves transcript "b",
and an output delta " world" after " hello" concatenates. -/
theorem claim2_witness :
    (∃ sess2, getLive (handleMsg 3 (run initialServer
        [(0, Msg.sessionStart "s" 0), (0, Msg.evt (some "s") (REvent.speechStarted 0))])
        (Msg.evt (some "s") (REvent.inputTranscriptionCompleted "hi"))) "s" = some sess2 ∧
      assocGet sess2.turns 1
        = some { id := 1, type := Direction.input, startedAt := 0, audioChunks := [],
                 transcript := "hi" }) := by
  have h := (claim2_transcript_amended (run initialServer
      [(0, Msg.sessionStart "s" 0), (0, Msg.evt (some "s") (REvent.speechStarted 0))])
      3 "s" _ 1 ⟨1, Direction.input, 0, [], ""⟩ rfl rfl).1 rfl "hi" (by decide)
  exact h

/-- The C2 counterexample trace: a current input turn receives transcript
completion "a" and then "b". -/
def c2Trace : List (Nat × Msg) :=
  [(0, Msg.sessionStart "s" 0),
   (0, Msg.evt (some "s") (REvent.speechStarted 0)),
   (1, Msg.evt (some "s") (REvent.inputTranscriptionCompleted "a")),
   (2, Msg.evt (some "s") (REvent.inputTranscriptionCompleted "b"))]

/-- C2 counterexample: after completions "a" then "b" the turn's transcript
is "b" — the second completion replaced the first — whereas the claim
("appends its transcript text to the accumulated transcript") predicts
"ab". -/
theorem claim2_counterexample :
    ((getLive (run initialServer c2Trace) "s").map
      (fun s => (assocGet s.turns 1).map (fun t => t.transcript))) = some (some "b") ∧
    some (some "b") ≠ some (some ("a" ++ "b")) := by
  exact ⟨rfl, by decide⟩

/-- A turn id held in a slot is bounded by the session's turn counter. -/
def optBound : Option Nat → Nat → Prop
  | none, _ => True
  | some i, n => i ≤ n

/-- Two occupied slots never hold the same turn id. -/
def optNe : Option Nat → Option Nat → Prop
  | some i, some j => i ≠ j
  | _, _ => True

/-- The slot invariant behind C1: each of the four slots is a single
optional reference (so at most one current and one pending turn exist per
direction by construction), every held id is bounded by the turn counter,
and the four slots are pairwise distinct — no turn is simultaneously
current and pending, or current for both directions. -/
def SlotInv (s : SessionState) : Prop :=
  optBound s.currentInputTurn s.turnCount ∧ optBound s.pendingInputTurn s.turnCount ∧
  optBound s.currentOutputTurn s.turnCount ∧ optBound s.pendingOutputTurn s.turnCount ∧
  optNe s.currentInputTurn s.pendingInputTurn ∧
  optNe s.currentInputTurn s.currentOutputTurn ∧
  optNe s.currentInputTurn s.pendingOutputTurn ∧
  optNe s.pendingInputTurn s.currentOutputTurn ∧
  optNe s.pendingInputTurn s.pendingOutputTurn ∧
  optNe s.currentOutputTurn s.pendingOutputTurn

/-- The global invariant: every session object in the heap satisfies the
slot invariant. -/
def ServerInv (st : ServerState) : Prop := ∀ p ∈ st.sessionHeap, SlotInv p.2

lemma optBound_mono (o : Option Nat) (n m : Nat) (h : optBound o n) (hnm : n ≤ m) :
    optBound o m := by
  cases o with
  | none => trivial
  | some i => exact le_trans h hnm

lemma optNe_fresh (o : Option Nat) (n : Nat) (h : optBound o n) : optNe (some (n+1)) o := by
  cases o with
  | none => trivial
  | some i =>
    show n + 1 ≠ i
    have : i ≤ n := h
    omega

lemma optNe_fresh_right (o : Option Nat) (n : Nat) (h : optBound o n) :
    optNe o (some (n+1)) := by
  cases o with
  | none => trivial
  | some i =>
    show i ≠ n + 1
    have : i ≤ n := h
    omega

lemma optNe_none_left (b : Option Nat) : optNe none b := by
  cases b <;> trivial

lemma optNe_none_right (a : Option Nat) : optNe a none := by
  cases a <;> trivial

lemma optBound_none (n : Nat) : optBound none n := trivial

lemma slotInv_fresh : SlotInv freshSession :=
  ⟨trivial, trivial, trivial, trivial, trivial, trivial, trivial, trivial, trivial, trivial⟩

lemma slotInv_setPending_none (s : SessionState) (d : Direction) (h : SlotInv s) :
    SlotInv (s.setPending d none) := by
  rcases h with ⟨b1, b2, b3, b4, n1, n2, n3, n4, n5, n6⟩
  cases d with
  | input =>
    exact ⟨b1, optBound_none _, b3, b4, optNe_none_right _, n2, n3, optNe_none_left _,
      optNe_none_left _, n6⟩
  | output =>
    exact ⟨b1, b2, b3, optBound_none _, n1, n2, optNe_none_right _, n4,
      optNe_none_right _, optNe_none_right _⟩

lemma mem_assocSet {kt vt : Type} [BEq kt] (l : List (kt × vt)) (k : kt) (v : vt) :
    ∀ p ∈ assocSet l k v, p = (k, v) ∨ p ∈ l := by
  induction l with
  | nil =>
    intro p hp
    rw [assocSet] at hp
    rcases List.mem_cons.mp hp with h1 | h1
    · exact Or.inl h1
    · cases h1
  | cons e rest ih =>
    intro p hp
    rw [assocSet] at hp
    by_cases he : (e.1 == k) = true
    · rw [if_pos he] at hp
      rcases List.mem_cons.mp hp with h1 | h1
      · exact Or.inl h1
      · exact Or.inr (List.mem_cons_of_mem _ h1)
    · rw [if_neg he] at hp
      rcases List.mem_cons.mp hp with h1 | h1
      · exact Or.inr (h1 ▸ List.mem_cons_self _ _)
      · rcases ih p h1 with h2 | h2
        · exact Or.inl h2
        · exact Or.inr (List.mem_cons_of_mem _ h2)

lemma assocGet_mem {kt vt : Type} [BEq kt] [LawfulBEq kt] (l : List (kt × vt)) (k : kt)
    (v : vt) (h : assocGet l k = some v) : (k, v) ∈ l := by
  induction l with
  | nil => cases h
  | cons e rest ih =>
    by_cases he : (e.1 == k) = true
    · have h2 : e.2 = v := by
        rw [assocGet, List.find?] at h
        simp only [he] at h
        simpa using h
      have h1 : e.1 = k := eq_of_beq he
      have he2 : e = (k, v) := Prod.ext h1 h2
      exact he2 ▸ List.mem_cons_self _ _
    · have h3 : assocGet rest k = some v := by
        rw [assocGet, List.find?] at h
        simp only [Bool.not_eq_true] at he
        simp only [he] at h
        exact h
      exact List.mem_cons_of_mem _ (ih h3)

lemma getLive_assocGet (st : ServerState) (key : String) (sess : SessionState)
    (h : getLive st key = some sess) : assocGet st.sessionHeap key = some sess := by
  by_cases hc : st.liveKeys.contains key = true
  · rw [getLive, if_pos hc] at h
    exact h
  · rw [getLive, if_neg hc] at h
    cases h

lemma serverInv_setSession (st : ServerState) (key : String) (s : SessionState)
    (h : ServerInv st) (hs : SlotInv s) : ServerInv (setSession st key s) := by
  intro p hp
  rcases mem_assocSet st.sessionHeap key s p hp with rfl | hm
  · exact hs
  · exact h p hm

lemma saveTurn_sessionHeap (st : ServerState) (key : String) (i : Nat) :
    (saveTurn st key i).sessionHeap = st.sessionHeap := by
  simp only [saveTurn]
  split
  · rfl
  · split
    · rfl
    · split <;> rfl

lemma serverInv_saveTurn (st : ServerState) (key : String) (i : Nat) (h : ServerInv st) :
    ServerInv (saveTurn st key i) := by
  intro p hp
  rw [saveTurn_sessionHeap] at hp
  exact h p hp

lemma serverInv_fireTimer (st : ServerState) (t : Timer) (h : ServerInv st) :
    ServerInv (fireTimer st t) := by
  simp only [fireTimer]
  split
  · exact h
  · rename_i sess heq
    intro p hp
    rw [saveTurn_sessionHeap] at hp
    rcases mem_assocSet _ t.sessionKey _ p hp with rfl | hm
    · have hs : SlotInv sess := h _ (assocGet_mem _ _ _ heq)
      show SlotInv (if sess.pendingTurn t.dir == some t.turnId
        then sess.setPending t.dir none else sess)
      split
      · exact slotInv_setPending_none sess t.dir hs
      · exact hs
    · exact h p hm

lemma serverInv_handleREvent (now : Nat) (st : ServerState) (key : String)
    (sess : SessionState) (e : REvent) (h : ServerInv st) (hs : SlotInv sess) :
    ServerInv (handleREvent now st key sess e) := by
  rcases hs with ⟨b1, b2, b3, b4, n1, n2, n3, n4, n5, n6⟩
  cases e with
  | speechStarted ts =>
    exact serverInv_setSession st key _ h
      ⟨Nat.le_refl _, optBound_mono _ _ _ b2 (Nat.le_succ _),
        optBound_mono _ _ _ b3 (Nat.le_succ _), optBound_mono _ _ _ b4 (Nat.le_succ _),
        optNe_fresh _ _ b2, optNe_fresh _ _ b3, optNe_fresh _ _ b4, n4, n5, n6⟩
  | speechStopped =>
    simp only [handleREvent]
    rcases hcur : sess.currentInputTurn with _ | i
    · exact serverInv_setSession st key _ h
        ⟨optBound_none _, b2, b3, b4, optNe_none_left _, optNe_none_left _,
          optNe_none_left _, n4, n5, n6⟩
    · rw [hcur] at b1 n2 n3
      exact serverInv_setSession st key _ h
        ⟨optBound_none _, b1, b3, b4, optNe_none_left _, optNe_none_left _,
          optNe_none_left _, n2, n3, n6⟩
  | inputTranscriptionCompleted t =>
    simp only [handleREvent]
    split
    · split
      · exact serverInv_setSession st key _ h ⟨b1, b2, b3, b4, n1, n2, n3, n4, n5, n6⟩
      · split
        · exact serverInv_setSession st key _ h ⟨b1, b2, b3, b4, n1, n2, n3, n4, n5, n6⟩
        · exact serverInv_setSession st key _ h ⟨b1, b2, b3, b4, n1, n2, n3, n4, n5, n6⟩
    · exact serverInv_setSession st key _ h ⟨b1, b2, b3, b4, n1, n2, n3, n4, n5, n6⟩
  | outputStarted ts =>
    exact serverInv_setSession st key _ h
      ⟨optBound_mono _ _ _ b1 (Nat.le_succ _), optBound_mono _ _ _ b2 (Nat.le_succ _),
        Nat.le_refl _, optBound_mono _ _ _ b4 (Nat.le_succ _),
        n1, optNe_fresh_right _ _ b1, n3, optNe_fresh_right _ _ b2, n5,
        optNe_fresh _ _ b4⟩
  | outputStopped =>
    simp only [handleREvent]
    rcases hcur : sess.currentOutputTurn with _ | i
    · exact serverInv_setSession st key _ h
        ⟨b1, b2, optBound_none _, b4, n1, optNe_none_right _, n3, optNe_none_right _,
          n5, optNe_none_left _⟩
    · rw [hcur] at b3 n2 n4
      exact serverInv_setSession st key _ h
        ⟨b1, b2, optBound_none _, b3, n1, optNe_none_right _, n2, optNe_none_right _,
          n4, optNe_none_left _⟩
  | outputTranscriptDelta d =>
    simp only [handleREvent]
    split
    · split
      · exact serverInv_setSession st key _ h ⟨b1, b2, b3, b4, n1, n2, n3, n4, n5, n6⟩
      · exact serverInv_setSession st key _ h ⟨b1, b2, b3, b4, n1, n2, n3, n4, n5, n6⟩
    · exact serverInv_setSession st key _ h ⟨b1, b2, b3, b4, n1, n2, n3, n4, n5, n6⟩
  | otherEvent =>
    exact serverInv_setSession st key _ h ⟨b1, b2, b3, b4, n1, n2, n3, n4, n5, n6⟩

lemma serverInv_handleAudio (st : ServerState) (key : String) (sess : SessionState)
    (dir : Direction) (data : Bytes) (h : ServerInv st) (hs : SlotInv sess) :
    ServerInv (handleAudio st key sess dir data) := by
  simp only [handleAudio]
  split
  · split
    · refine serverInv_setSession _ key _ ?_ ?_
      · split
        · exact h
        · exact h
      · exact hs
    · split
      · exact h
      · exact h
  · split
    · exact h
    · exact h

lemma handleSessionEnd_sessionHeap (st : ServerState) (key : String)
    (sess : SessionState) : (handleSessionEnd st key sess).sessionHeap = st.sessionHeap := by
  simp only [handleSessionEnd]
  split <;> split <;> split <;> split <;>
    simp only [saveTurn_sessionHeap]

lemma serverInv_handleSessionEnd (st : ServerState) (key : String) (sess : SessionState)
    (h : ServerInv st) : ServerInv (handleSessionEnd st key sess) := by
  intro p hp
  rw [handleSessionEnd_sessionHeap] at hp
  exact h p hp

lemma serverInv_handleMsg (now : Nat) (st : ServerState) (m : Msg) (h : ServerInv st) :
    ServerInv (handleMsg now st m) := by
  cases m with
  | sessionStart id t0 =>
    intro p hp
    rcases mem_assocSet st.sessionHeap id freshSession p hp with rfl | hm
    · exact slotInv_fresh
    · exact h p hm
  | evt sid e =>
    simp only [handleMsg]
    rcases hk : sid.orElse (fun _ => findSessionId st) with _ | key
    · exact h
    · show ServerInv (match getLive st key with
        | none => st
        | some sess => handleREvent now st key sess e)
      rcases hg : getLive st key with _ | sess
      · exact h
      · exact serverInv_handleREvent now st key sess e h
          (h _ (assocGet_mem _ _ _ (getLive_assocGet st key sess hg)))
  | audioMsg sid dir data =>
    simp only [handleMsg]
    rcases hk : sid.orElse (fun _ => findSessionId st) with _ | key
    · exact h
    · show ServerInv (match getLive st key with
        | none => st
        | some sess => if data.isEmpty then st else handleAudio st key sess dir data)
      rcases hg : getLive st key with _ | sess
      · exact h
      · show ServerInv (if data.isEmpty then st else handleAudio st key sess dir data)
        by_cases hd : data.isEmpty = true
        · rw [if_pos hd]
          exact h
        · rw [if_neg hd]
          exact serverInv_handleAudio st key sess dir data h
            (h _ (assocGet_mem _ _ _ (getLive_assocGet st key sess hg)))
  | sessionEnd sid =>
    simp only [handleMsg]
    rcases hk : sid.orElse (fun _ => findSessionId st) with _ | key
    · exact h
    · show ServerInv (match getLive st key with
        | none => st
        | some sess => handleSessionEnd st key sess)
      rcases hg : getLive st key with _ | sess
      · exact h
      · exact serverInv_handleSessionEnd st key sess h

lemma serverInv_fireDue :
    ∀ (fuel now : Nat) (st : ServerState), ServerInv st → ServerInv (fireDue fuel now st) := by
  intro fuel
  induction fuel with
  | zero => intro now st h; exact h
  | succ n ih =>
    intro now st h
    simp only [fireDue]
    split
    · exact h
    · exact ih now _ (serverInv_fireTimer st _ h)

lemma serverInv_drainTimers :
    ∀ (fuel : Nat) (st : ServerState), ServerInv st → ServerInv (drainTimers fuel st) := by
  intro fuel
  induction fuel with
  | zero => intro st h; exact h
  | succ n ih =>
    intro st h
    simp only [drainTimers]
    split
    · exact h
    · exact ih _ (serverInv_fireTimer st _ h)

lemma serverInv_run :
    ∀ (inputs : List (Nat × Msg)) (st : ServerState), ServerInv st →
      ServerInv (run st inputs) := by
  intro inputs
  induction inputs with
  | nil => intro st h; exact h
  | cons x rest ih =>
    intro st h
    exact ih _ (serverInv_handleMsg x.1 _ x.2 (serverInv_fireDue st.timers.length x.1 st h))

/-- C1 (amended): (a) for every input trace, every session in the resulting
server state satisfies the slot invariant — each direction has at most one
current and at most one pending turn (single optional slots), the four slots
are pairwise distinct, and held ids never exceed the turn counter; (b)
however, a "started" boundary event processed while a current turn for its
direction is still open DOES open a fresh current turn (id = turnCount + 1),
silently replacing — not preserving — the open one; the pending slot is
untouched.  Part (b) holds unconditionally on the current slot, which is
what falsifies the original claim's "never opens a new current turn". -/
theorem claim1_slots_amended :
    (∀ inputs : List (Nat × Msg), ∀ p ∈ (runAndDrain inputs).sessionHeap, SlotInv p.2) ∧
    (∀ (now : Nat) (st : ServerState) (key : String) (sess : SessionState) (ts : Nat),
      getLive st key = some sess →
      ∃ sess2, getLive (handleMsg now st (Msg.evt (some key) (REvent.speechStarted ts)))
          key = some sess2 ∧
        sess2.turnCount = sess.turnCount + 1 ∧
        sess2.currentInputTurn = some (sess.turnCount + 1) ∧
        sess2.pendingInputTurn = sess.pendingInputTurn) := by
  constructor
  · intro inputs
    have h0 : ServerInv initialServer := by
      intro p hp
      cases hp
    exact serverInv_drainTimers _ _ (serverInv_run inputs initialServer h0)
  · intro now st key sess ts hlive
    have hmsg : handleMsg now st (Msg.evt (some key) (REvent.speechStarted ts))
        = handleREvent now st key sess (REvent.speechStarted ts) := by
      show (match getLive st key with
        | none => st
        | some s => handleREvent now st key s (REvent.speechStarted ts)) = _
      rw [hlive]
    rw [hmsg]
    exact ⟨_, getLive_setSession st key _ (getLive_contains st key sess hlive),
      rfl, rfl, rfl⟩

/-- C1 witness: the invariant holds for the session produced by a one-start
trace, and processing a started event on a session whose current input slot
already holds turn 1 installs the fresh turn 2. -/
theorem claim1_witness :
    SlotInv freshSession ∧
    (∃ sess2, getLive (handleMsg 7 (run initialServer
        [(0, Msg.sessionStart "s" 0), (0, Msg.evt (some "s") (REvent.speechStarted 0))])
        (Msg.evt (some "s") (REvent.speechStarted 7))) "s" = some sess2 ∧
      sess2.turnCount = 2 ∧ sess2.currentInputTurn = some 2 ∧
      sess2.pendingInputTurn = none) := by
  refine ⟨claim1_slots_amended.1 [(0, Msg.sessionStart "s" 0)] ("s", freshSession)
    (by decide), ?_⟩
  exact claim1_slots_amended.2 7
    (run initialServer
      [(0, Msg.sessionStart "s" 0), (0, Msg.evt (some "s") (REvent.speechStarted 0))])
    "s"
    ⟨1, [(1, ⟨1, Direction.input, 0, [], ""⟩)], some 1, none, none, none,
      [REvent.speechStarted 0]⟩ 7 rfl

/-- C1 counterexample: after `speech_started` at t = 0, the current input
turn is turn 1 and still open; processing a second `speech_started` at
t = 1 nevertheless opens a new current turn (id 2), contradicting the
claim's "never opens a new current turn for a direction while a current
turn for that same direction is still open". -/
theorem claim1_counterexample :
    (getLive (run initialServer
      [(0, Msg.sessionStart "s" 0), (0, Msg.evt (some "s") (REvent.speechStarted 0))])
      "s").map SessionState.currentInputTurn = some (some 1) ∧
    (getLive (run initialServer
      [(0, Msg.sessionStart "s" 0), (0, Msg.evt (some "s") (REvent.speechStarted 0)),
       (1, Msg.evt (some "s") (REvent.speechStarted 1))])
      "s").map SessionState.currentInputTurn = some (some 2) ∧
    (some (some 2) : Option (Option Nat)) ≠ some (some 1) := by
  exact ⟨rfl, rfl, by decide⟩

/-- C4 scenario: start, input speech started at 0, speech stopped at `s`. -/
def c4StopIn (s : Nat) : List (Nat × Msg) :=
  [(0, Msg.sessionStart "s" 0),
   (0, Msg.evt (some "s") (REvent.speechStarted 0)),
   (s, Msg.evt (some "s") REvent.speechStopped)]

/-- C4 scenario, output direction: start, output started at 0, stopped at `s`. -/
def c4StopOut (s : Nat) : List (Nat × Msg) :=
  [(0, Msg.sessionStart "s" 0),
   (0, Msg.evt (some "s") (REvent.outputStarted 0)),
   (s, Msg.evt (some "s") REvent.outputStopped)]

/-- C4 scenario: the input-stop trace followed by a transcript-completion
event arriving `d` milliseconds after the stop. -/
def c4TransIn (s d : Nat) : List (Nat × Msg) :=
  c4StopIn s ++ [(s + d, Msg.evt (some "s") (REvent.inputTranscriptionCompleted "hello"))]

/-- The session state right after the input-stop trace. -/
def c4Sess3 : SessionState :=
  ⟨1, [(1, ⟨1, Direction.input, 0, [], ""⟩)], none, some 1, none, none,
    [REvent.speechStarted 0, REvent.speechStopped]⟩

/-- The server state right after the input-stop trace: pending input turn 1
and a finalization timer armed for `s + 1500`. -/
def c4St3 (s : Nat) : ServerState :=
  ⟨[("s", c4Sess3)], ["s"], [], [⟨s + 1500, "s", Direction.input, 1⟩], []⟩

/-- The server state after a transcript "hello" reached the pending turn. -/
def c4St4 (s : Nat) : ServerState :=
  ⟨[("s", ⟨1, [(1, ⟨1, Direction.input, 0, [], "hello"⟩)], none, some 1, none, none,
      [REvent.speechStarted 0, REvent.speechStopped,
        REvent.inputTranscriptionCompleted "hello"]⟩)],
    ["s"], [], [⟨s + 1500, "s", Direction.input, 1⟩], []⟩

/-- The final state of the recorded-transcript scenario: the timer fired
after the transcript arrived, so the saved turn carries "hello". -/
def c4Final : ServerState :=
  ⟨[("s", ⟨1, [(1, ⟨1, Direction.input, 0, [], "hello"⟩)], none, none, none, none,
      [REvent.speechStarted 0, REvent.speechStopped,
        REvent.inputTranscriptionCompleted "hello"]⟩)],
    ["s"], [], [], [⟨"s", ⟨1, Direction.input, 0, [], "hello"⟩, none⟩]⟩

/-- The server state after the grace timer fired before the transcript
arrived: pending slot cleared and the turn saved with an empty transcript. -/
def c4Fired : ServerState :=
  ⟨[("s", ⟨1, [(1, ⟨1, Direction.input, 0, [], ""⟩)], none, none, none, none,
      [REvent.speechStarted 0, REvent.speechStopped]⟩)],
    ["s"], [], [], [⟨"s", ⟨1, Direction.input, 0, [], ""⟩, none⟩]⟩

/-- `c4Fired` after the too-late transcript event (only logged; the turn was
already saved without it). -/
def c4FiredE : ServerState :=
  ⟨[("s", ⟨1, [(1, ⟨1, Direction.input, 0, [], ""⟩)], none, none, none, none,
      [REvent.speechStarted 0, REvent.speechStopped,
        REvent.inputTranscriptionCompleted "hello"]⟩)],
    ["s"], [], [], [⟨"s", ⟨1, Direction.input, 0, [], ""⟩, none⟩]⟩

/-- C4 (confirmed): a "stopped" boundary event moves the current turn to the
pending slot and arms a finalization timer with a 1500 ms grace period for
input turns and 500 ms for output turns; a transcript-completion event
arriving `d` ms after the stop with `d < 1500` is recorded on the turn that
gets saved when the timer fires, while one arriving with `d > 1500` finds
the turn already saved (with empty transcript) and is not recorded on it. -/
theorem claim4_grace_periods (s d : Nat) :
    ((run initialServer (c4StopIn s)).timers = [⟨s + 1500, "s", Direction.input, 1⟩]) ∧
    ((run initialServer (c4StopOut s)).timers = [⟨s + 500, "s", Direction.output, 1⟩]) ∧
    (d < 1500 →
      (runAndDrain (c4TransIn s d)).savedLog.map (fun v => v.turn.transcript)
        = ["hello"]) ∧
    (1500 < d →
      (runAndDrain (c4TransIn s d)).savedLog.map (fun v => v.turn.transcript) = [""]) := by
  refine ⟨rfl, rfl, ?_, ?_⟩
  · intro hd
    have hpick : pickDue (s + d) [⟨s + 1500, "s", Direction.input, 1⟩] = none := by
      simp only [pickDue]
      rw [if_neg (show ¬(s + 1500 ≤ s + d) by omega)]
    have hfire : fireDue 1 (s + d) (c4St3 s) = c4St3 s := by
      simp only [fireDue]
      rw [show (c4St3 s).timers = [⟨s + 1500, "s", Direction.input, 1⟩] from rfl, hpick]
    have h4 : run initialServer (c4TransIn s d) = c4St4 s := by
      show handleMsg (s + d) (fireDue (c4St3 s).timers.length (s + d) (c4St3 s))
        (Msg.evt (some "s") (REvent.inputTranscriptionCompleted "hello")) = c4St4 s
      rw [show (c4St3 s).timers.length = 1 from rfl, hfire]
      rfl
    show (drainTimers (run initialServer (c4TransIn s d)).timers.length
      (run initialServer (c4TransIn s d))).savedLog.map (fun v => v.turn.transcript)
      = ["hello"]
    rw [h4, show (c4St4 s).timers.length = 1 from rfl]
    have hdrain : drainTimers 1 (c4St4 s) = c4Final := by
      simp only [drainTimers]
      rw [show pickNext (c4St4 s).timers = some ⟨s + 1500, "s", Direction.input, 1⟩
        from rfl]
      show fireTimer (c4St4 s) ⟨s + 1500, "s", Direction.input, 1⟩ = c4Final
      simp only [fireTimer]
      rw [show (c4St4 s).timers = [⟨s + 1500, "s", Direction.input, 1⟩] from rfl,
        List.erase_cons_head]
      rfl
    rw [hdrain]
    rfl
  · intro hd
    have hpick : pickDue (s + d) [⟨s + 1500, "s", Direction.input, 1⟩]
        = some ⟨s + 1500, "s", Direction.input, 1⟩ := by
      simp only [pickDue]
      rw [if_pos (show s + 1500 ≤ s + d by omega)]
    have hfire : fireDue 1 (s + d) (c4St3 s) = c4Fired := by
      simp only [fireDue]
      rw [show (c4St3 s).timers = [⟨s + 1500, "s", Direction.input, 1⟩] from rfl, hpick]
      show fireTimer (c4St3 s) ⟨s + 1500, "s", Direction.input, 1⟩ = c4Fired
      simp only [fireTimer]
      rw [show (c4St3 s).timers = [⟨s + 1500, "s", Direction.input, 1⟩] from rfl,
        List.erase_cons_head]
      rfl
    have h4 : run initialServer (c4TransIn s d) = c4FiredE := by
      show handleMsg (s + d) (fireDue (c4St3 s).timers.length (s + d) (c4St3 s))
        (Msg.evt (some "s") (REvent.inputTranscriptionCompleted "hello")) = c4FiredE
      rw [show (c4St3 s).timers.length = 1 from rfl, hfire]
      rfl
    show (drainTimers (run initialServer (c4TransIn s d)).timers.length
      (run initialServer (c4TransIn s d))).savedLog.map (fun v => v.turn.transcript)
      = [""]
    rw [h4]
    rfl

/-- C4 witness: with the stop at t = 0, a transcript arriving 1000 ms later
(inside the 1500 ms grace) is recorded on the saved turn; one arriving
2000 ms later is not. -/
theorem claim4_witness :
    (runAndDrain (c4TransIn 0 1000)).savedLog.map (fun v => v.turn.transcript)
      = ["hello"] ∧
    (runAndDrain (c4TransIn 0 2000)).savedLog.map (fun v => v.turn.transcript) = [""] :=
  ⟨(claim4_grace_periods 0 1000).2.2.1 (by omega),
   (claim4_grace_periods 0 2000).2.2.2 (by omega)⟩

end RTObs
